import Mathlib

/-!
Shallow embedding of the resumi backend (GR-NADE/resumi).

The embedded code:
* `src/server/routes/analysis.js` — the `POST /analyze` route (input gate,
  truncation, AI-response normalization block, persistence payload) and the
  `GET /:uniqueId` route (identifier validation, response shape);
* `src/unnamed/part_001` — the upload route: `cleanupFile`, `performImageOCR`,
  `parsePDF` and the `POST /resume` handler.

Strings are modelled as Lean `String` (lists of characters); JavaScript string
lengths (UTF-16 units) are modelled as character counts.  JSON numbers are
modelled as integers (`Int`); every score handled by the program is an integer
and no claim depends on fractional values.  JavaScript `Number` coercion
results are modelled by `JsNum` (finite / NaN / infinities).
-/

/-! ## Character and string helpers -/

/-- JSON / JS whitespace as used by `trim` and the JSON parser (model). -/
def isWsChar (c : Char) : Bool :=
  c = ' ' || c = '\t' || c = '\n' || c = '\r'

/-- `String.prototype.trim` on a character list: drop leading and trailing
whitespace. -/
def trimChars (cs : List Char) : List Char :=
  ((cs.dropWhile isWsChar).reverse.dropWhile isWsChar).reverse

/-- JS `s.trim()` (model). -/
def jsTrim (s : String) : String := ⟨trimChars s.data⟩

/-- JS `s.substring(0, n)` (model): the first `n` characters. -/
def jsSubstring (s : String) (n : Nat) : String := ⟨s.data.take n⟩

/-! ## JSON values

`Json` models the values `JSON.parse` can produce.  Numbers are modelled as
integers (see the header note).  Object fields are an association list in
insertion order, as JavaScript objects preserve it. -/

inductive Json where
  | null : Json
  | bool (b : Bool) : Json
  | num (n : Int) : Json
  | str (s : String) : Json
  | arr (elems : List Json) : Json
  | obj (fields : List (String × Json)) : Json

/-- Association-list lookup by key (first match), i.e. JS property access on an
object whose keys are unique. -/
def lookupKey {α : Type} (k : String) : List (String × α) → Option α
  | [] => none
  | (k', v) :: rest => if k' = k then some v else lookupKey k rest

/-- JS property access `o[k]` on a parsed JSON value: objects look the key up,
everything else (including arrays, whose properties here are numeric only)
yields `undefined`, modelled as `none`. -/
def Json.getField : Json → String → Option Json
  | .obj fields, k => lookupKey k fields
  | _, _ => none

/-! ## JS number coercion (`Number(x)`) -/

/-- Result of JS numeric coercion: finite value, `NaN`, or an infinity. -/
inductive JsNum where
  | fin (n : Int) : JsNum
  | nan : JsNum
  | posInf : JsNum
  | negInf : JsNum
deriving DecidableEq

/-- Parse a decimal digit. -/
def digitVal? (c : Char) : Option Nat :=
  if '0' ≤ c ∧ c ≤ '9' then some (c.toNat - '0'.toNat) else none

/-- Fold decimal digits into a natural number; fails on a non-digit or an
empty list. -/
def digitsToNat : List Char → Option Nat
  | [] => none
  | cs => go cs 0
where
  go : List Char → Nat → Option Nat
  | [], acc => some acc
  | c :: rest, acc =>
    match digitVal? c with
    | some d => go rest (acc * 10 + d)
    | none => none

/-- JS `Number(s)` on a string (model): trim; empty → 0; `Infinity` forms; an
optionally signed integer numeral; anything else (fractions included, since
JSON numbers are modelled integral) → NaN. -/
def strToNumber (s : String) : JsNum :=
  match trimChars s.data with
  | [] => .fin 0
  | cs =>
    if cs = "Infinity".data ∨ cs = "+Infinity".data then .posInf
    else if cs = "-Infinity".data then .negInf
    else
      match cs with
      | '-' :: rest =>
        match digitsToNat rest with
        | some n => .fin (-(n : Int))
        | none => .nan
      | '+' :: rest =>
        match digitsToNat rest with
        | some n => .fin (n : Int)
        | none => .nan
      | _ =>
        match digitsToNat cs with
        | some n => .fin (n : Int)
        | none => .nan

/-- JS `Number(x)` on a parsed JSON value (model).  Arrays convert via their
string form; we model the common cases shallowly: `[]` → 0, a one-element
array of a number or string converts like that element, other arrays → NaN.
Objects → NaN. -/
def jsToNumber : Json → JsNum
  | .null => .fin 0
  | .bool true => .fin 1
  | .bool false => .fin 0
  | .num n => .fin n
  | .str s => strToNumber s
  | .arr [] => .fin 0
  | .arr [.num n] => .fin n
  | .arr [.str s] => strToNumber s
  | .arr _ => .nan
  | .obj _ => .nan

/-- JS `Number(x)` where `x` may be `undefined` (absent property):
`Number(undefined) = NaN`. -/
def jsToNumberU : Option Json → JsNum
  | none => .nan
  | some j => jsToNumber j

/-! ## JS string coercion (`String(x)`) -/

/-- The character of a decimal digit. -/
def digitChar (d : Nat) : Char := Char.ofNat ('0'.toNat + d)

/-- Decimal digits, most significant first; `fuel` bounds the digit count. -/
def natToDigitsAux : Nat → Nat → List Char
  | 0, _ => []
  | fuel + 1, n =>
    if n < 10 then [digitChar n]
    else natToDigitsAux fuel (n / 10) ++ [digitChar (n % 10)]

/-- Decimal digits of a natural number, most significant first. -/
def natToDigits (n : Nat) : List Char := natToDigitsAux (n + 1) n

/-- Decimal rendering of an integer (digits, with a leading `-` when
negative). -/
def intToDecString (n : Int) : String :=
  if n < 0 then ⟨'-' :: natToDigits n.natAbs⟩ else ⟨natToDigits n.natAbs⟩

/-- JS `String(x)` for a parsed JSON value (model).  Arrays join their
elements with commas; nested structure inside an array is modelled shallowly
(`null` → empty, nested arrays → empty, objects → "[object Object]"), which no
claim depends on. -/
def jsToString (j : Json) : String :=
  match j with
  | .null => "null"
  | .bool true => "true"
  | .bool false => "false"
  | .num n => intToDecString n
  | .str s => s
  | .arr elems => String.intercalate "," (elems.map elemString)
  | .obj _ => "[object Object]"
where
  elemString : Json → String
  | .null => ""
  | .bool true => "true"
  | .bool false => "false"
  | .num n => intToDecString n
  | .str s => s
  | .arr _ => ""
  | .obj _ => "[object Object]"

/-- JS truthiness of a parsed JSON value or `undefined` (`none`).  Falsy:
`undefined`, `null`, `false`, `0`, `""`. -/
def jsTruthy : Option Json → Bool
  | none => false
  | some .null => false
  | some (.bool b) => b
  | some (.num n) => n ≠ 0
  | some (.str s) => s ≠ ""
  | some (.arr _) => true
  | some (.obj _) => true

/-! ## A model of `JSON.parse`

A fueled recursive-descent parser producing `Json`.  It follows the JSON
grammar with two documented simplifications that no claim depends on: numbers
are integer numerals (a fraction or exponent makes the enclosing parse fail,
as does any other grammar violation), and `\u` escapes that denote surrogates
produce the null character.  Duplicate object keys follow JavaScript:
the later value wins, at the earlier key's position. -/

/-- Skip JSON whitespace. -/
def skipWs (cs : List Char) : List Char := cs.dropWhile isWsChar

/-- Value of a hexadecimal digit. -/
def hexVal? (c : Char) : Option Nat :=
  if '0' ≤ c ∧ c ≤ '9' then some (c.toNat - '0'.toNat)
  else if 'a' ≤ c ∧ c ≤ 'f' then some (c.toNat - 'a'.toNat + 10)
  else if 'A' ≤ c ∧ c ≤ 'F' then some (c.toNat - 'A'.toNat + 10)
  else none

/-- Single-character JSON string escapes. -/
def unescapeChar? : Char → Option Char
  | '"' => some '"'
  | '\\' => some '\\'
  | '/' => some '/'
  | 'b' => some (Char.ofNat 8)
  | 'f' => some (Char.ofNat 12)
  | 'n' => some '\n'
  | 'r' => some '\r'
  | 't' => some '\t'
  | _ => none

/-- Parse the body of a JSON string literal (the opening quote already
consumed), returning the content and the remaining input.  Raw control
characters are rejected, as `JSON.parse` rejects them. -/
def parseStringBody : List Char → Option (List Char × List Char)
  | [] => none
  | c :: rest =>
    if c = '"' then some ([], rest)
    else if c = '\\' then
      match rest with
      | [] => none
      | e :: rest' =>
        if e = 'u' then
          match rest' with
          | h1 :: h2 :: h3 :: h4 :: rest'' =>
            match hexVal? h1, hexVal? h2, hexVal? h3, hexVal? h4 with
            | some a, some b, some c', some d =>
              (parseStringBody rest'').map fun p =>
                (Char.ofNat (((a * 16 + b) * 16 + c') * 16 + d) :: p.1, p.2)
            | _, _, _, _ => none
          | _ => none
        else
          match unescapeChar? e with
          | some c' => (parseStringBody rest').map fun p => (c' :: p.1, p.2)
          | none => none
    else if c.toNat < 32 then none
    else (parseStringBody rest).map fun p => (c :: p.1, p.2)

/-- Parse a nonempty run of decimal digits. -/
def parseDigits (cs : List Char) : Option (Nat × List Char) :=
  let p := cs.span fun c => (digitVal? c).isSome
  match digitsToNat p.1 with
  | some n => some (n, p.2)
  | none => none

/-- Parse a JSON integer numeral (optional minus sign). -/
def parseNumber (cs : List Char) : Option (Int × List Char) :=
  match cs with
  | '-' :: rest => (parseDigits rest).map fun p => (-(p.1 : Int), p.2)
  | _ => (parseDigits cs).map fun p => ((p.1 : Int), p.2)

/-- Record a parsed object member as JavaScript does: a duplicate key
overwrites the earlier value in place, a fresh key is appended. -/
def insertField (fields : List (String × Json)) (k : String) (v : Json) :
    List (String × Json) :=
  match fields with
  | [] => [(k, v)]
  | (k', v') :: rest =>
    if k' = k then (k', v) :: rest else (k', v') :: insertField rest k v

mutual

/-- Parse one JSON value. -/
def parseValue : Nat → List Char → Option (Json × List Char)
  | 0, _ => none
  | fuel + 1, cs =>
    match skipWs cs with
    | [] => none
    | c :: rest =>
      if c = '{' then
        match skipWs rest with
        | '}' :: r => some (.obj [], r)
        | rest' => parseMembers fuel rest' []
      else if c = '[' then
        match skipWs rest with
        | ']' :: r => some (.arr [], r)
        | rest' => parseElems fuel rest' []
      else if c = '"' then (parseStringBody rest).map fun p => (.str ⟨p.1⟩, p.2)
      else if "true".data.isPrefixOf (c :: rest) then
        some (.bool true, (c :: rest).drop 4)
      else if "false".data.isPrefixOf (c :: rest) then
        some (.bool false, (c :: rest).drop 5)
      else if "null".data.isPrefixOf (c :: rest) then
        some (.null, (c :: rest).drop 4)
      else (parseNumber (c :: rest)).map fun p => (.num p.1, p.2)

/-- Parse the members of a JSON object (at least one expected). -/
def parseMembers : Nat → List Char → List (String × Json) →
    Option (Json × List Char)
  | 0, _, _ => none
  | fuel + 1, cs, acc =>
    match skipWs cs with
    | '"' :: rest =>
      match parseStringBody rest with
      | none => none
      | some (key, r1) =>
        match skipWs r1 with
        | ':' :: r2 =>
          match parseValue fuel r2 with
          | none => none
          | some (v, r3) =>
            match skipWs r3 with
            | ',' :: r4 => parseMembers fuel r4 (insertField acc ⟨key⟩ v)
            | '}' :: r4 => some (.obj (insertField acc ⟨key⟩ v), r4)
            | _ => none
        | _ => none
    | _ => none

/-- Parse the elements of a JSON array (at least one expected). -/
def parseElems : Nat → List Char → List Json → Option (Json × List Char)
  | 0, _, _ => none
  | fuel + 1, cs, acc =>
    match parseValue fuel cs with
    | none => none
    | some (v, r1) =>
      match skipWs r1 with
      | ',' :: r2 => parseElems fuel r2 (acc ++ [v])
      | ']' :: r2 => some (.arr (acc ++ [v]), r2)
      | _ => none

end

/-- `JSON.parse` (model): parse one value, require only whitespace after it. -/
def parseJson (s : String) : Option Json :=
  match parseValue (s.data.length + 1) s.data with
  | some (j, rest) => if skipWs rest = [] then some j else none
  | none => none

/-! ## The normalized analysis record and the normalization block

Embeds the normalization block of `POST /analyze`
(`src/server/routes/analysis.js`, lines 97-170). -/

/-- The fully-populated analysis record the normalization block produces. -/
structure NormalizedAnalysis where
  overallScore : Int
  summary : String
  strengths : List String
  weaknesses : List String
  improvements : List String
  keywordSuggestions : List String
  categories : List (String × Int)
deriving DecidableEq

/-- JS `v || 7` applied to a coerced number: the falsy numbers are `NaN`
and `0`. -/
def numOr7 : JsNum → JsNum
  | .nan => .fin 7
  | .fin 0 => .fin 7
  | v => v

/-- `Math.min(10, Math.max(0, Number(x) || 7))` — the score coercion used for
`overallScore` (line 109) and each category value (line 146). -/
def clampScore (x : Option Json) : Int :=
  match numOr7 (jsToNumberU x) with
  | .fin n => min 10 (max 0 n)
  | .posInf => 10
  | .negInf => 0
  | .nan => 7

/-- `String(analysisData.summary || "Resume analysis completed.").substring(0, 500)`
(line 110). -/
def summaryStep (x : Option Json) : String :=
  let chosen : Json :=
    match x with
    | some j => if jsTruthy (some j) then j else .str "Resume analysis completed."
    | none => .str "Resume analysis completed."
  jsSubstring (jsToString chosen) 500

/-- `Array.isArray(x) ? x.slice(0, maxLen).filter(s => s && typeof s === 'string') : defaults`
— the list-field normalization of lines 112-118. -/
def listFieldStep (x : Option Json) (maxLen : Nat) (defaults : List String) :
    List String :=
  match x with
  | some (.arr elems) =>
    (elems.take maxLen).filterMap fun j =>
      match j with
      | .str s => if s = "" then none else some s
      | _ => none
  | _ => defaults

/-- The default category scores (lines 122-128 and 132-138). -/
def defaultCategories : List (String × Int) :=
  [("formatting", 7), ("content", 7), ("skills", 7), ("experience", 7),
   ("achievements", 7)]

/-- The defaults as JSON values, for the object spread. -/
def defaultCategoriesJson : List (String × Json) :=
  defaultCategories.map fun kv => (kv.1, .num kv.2)

/-- The object spread `{...defaults, ...input}`: the default keys first, in
order, each overridden by the input when present, then the input's remaining
keys in their own order. -/
def spreadMerge (defaults fields : List (String × Json)) :
    List (String × Json) :=
  (defaults.map fun kv => (kv.1, (lookupKey kv.1 fields).getD kv.2)) ++
    fields.filter fun kv => (lookupKey kv.1 defaults).isNone

/-- The categories normalization (lines 120-148).  A missing, falsy or
non-object value yields the all-default table; an object is spread over the
defaults and every value clamped; an array (which is a truthy `'object'` in
JS) spreads as its index-keyed fields. -/
def categoriesStep (x : Option Json) : List (String × Int) :=
  match x with
  | some (.obj fields) =>
    (spreadMerge defaultCategoriesJson fields).map fun kv =>
      (kv.1, clampScore (some kv.2))
  | some (.arr elems) =>
    (spreadMerge defaultCategoriesJson
        (elems.enum.map fun iv => (intToDecString (iv.1 : Int), iv.2))).map
      fun kv => (kv.1, clampScore (some kv.2))
  | _ => defaultCategories

/-- Field-by-field normalization of a parsed completion object
(lines 109-148), with the default lists of lines 112, 114, 116 and 118. -/
def normalizeFields (fields : List (String × Json)) : NormalizedAnalysis where
  overallScore := clampScore (lookupKey "overallScore" fields)
  summary := summaryStep (lookupKey "summary" fields)
  strengths := listFieldStep (lookupKey "strengths" fields) 5
    ["Professional content", "Relevant experience", "Clear structure"]
  weaknesses := listFieldStep (lookupKey "weaknesses" fields) 5
    ["Could improve quantifiable achievements", "Limited detail in some areas"]
  improvements := listFieldStep (lookupKey "improvements" fields) 5
    ["Add specific metrics", "Include more details",
     "Highlight key accomplishments"]
  keywordSuggestions := listFieldStep (lookupKey "keywordSuggestions" fields) 10
    ["Industry terms", "Technical skills", "Relevant certifications"]
  categories := categoriesStep (lookupKey "categories" fields)

/-- The hardcoded fallback payload of the `catch` block (lines 155-169). -/
def fallbackAnalysis : NormalizedAnalysis where
  overallScore := 7
  summary := "Resume shows professional experience and relevant skills. The content demonstrates good structure with room for enhancement in specific areas."
  strengths := ["Clear professional presentation",
    "Relevant experience documented", "Technical skills highlighted",
    "Organized structure"]
  weaknesses := ["Could include more quantifiable achievements",
    "Some sections could use more detail",
    "Missing some industry-specific keywords"]
  improvements := ["Add specific metrics and numbers to achievements",
    "Include more detailed project descriptions",
    "Expand on technical skill proficiency levels",
    "Add relevant certifications or training"]
  keywordSuggestions := ["Industry-specific terminology",
    "Technical skills and tools", "Soft skills", "Relevant certifications",
    "Project management"]
  categories := [("formatting", 7), ("content", 7), ("skills", 7),
    ("experience", 7), ("achievements", 6)]

/-- Normalize a successfully parsed completion value.  An object is
normalized field by field; an array accepts the property assignments (arrays
are objects) and every named field reads back `undefined`; on any primitive
the first property assignment throws a `TypeError` (ES modules run in strict
mode), which the `catch` turns into the fallback payload. -/
def normalizeParsed : Json → NormalizedAnalysis
  | .obj fields => normalizeFields fields
  | .arr _ => normalizeFields []
  | _ => fallbackAnalysis

/-- One global-replace pass of `replace(/PAT\n?/g, '')`: remove every
occurrence of `pat` together with one directly following newline, scanning
left to right without overlap.  `fuel` bounds the recursion; callers pass the
input length. -/
def stripPattern (pat : List Char) : Nat → List Char → List Char
  | 0, cs => cs
  | _ + 1, [] => []
  | fuel + 1, c :: rest =>
    if pat.isPrefixOf (c :: rest) then
      match (c :: rest).drop pat.length with
      | '\n' :: r => stripPattern pat fuel r
      | r => stripPattern pat fuel r
    else c :: stripPattern pat fuel rest

/-- `aiResponse.replace(/```json\n?/g, '').replace(/```\n?/g, '')`
(line 102). -/
def stripFencePatterns (cs : List Char) : List Char :=
  let p1 := stripPattern "```json".data (cs.length + 1) cs
  stripPattern "```".data (p1.length + 1) p1

/-- The regex extraction `aiResponse.match(/\{[\s\S]*\}/)` (lines 104-105):
the match runs from the first `{` to the last `}` when such a pair exists
(greedy, and `[\s\S]` crosses newlines); otherwise the whole cleaned string
is the parse candidate. -/
def extractJsonCandidate (cs : List Char) : List Char :=
  let fromBrace := cs.dropWhile fun c => c ≠ '{'
  match fromBrace with
  | [] => cs
  | _ =>
    if fromBrace.contains '}' then
      (fromBrace.reverse.dropWhile fun c => c ≠ '}').reverse
    else cs

/-- The full normalization block (lines 97-170): trim, strip markdown fences,
trim, extract the brace-delimited candidate, `JSON.parse`, then field-by-field
normalization; any parse failure (or the strict-mode `TypeError` on a
primitive) lands in the `catch` and yields the fallback payload.  A total
function of the raw completion. -/
def normalizeCompletion (raw : String) : NormalizedAnalysis :=
  let cleaned := trimChars (stripFencePatterns (trimChars raw.data))
  let candidate := extractJsonCandidate cleaned
  match parseJson ⟨candidate⟩ with
  | some j => normalizeParsed j
  | none => fallbackAnalysis

/-! ## Serialization of a normalized record

Modelled from the spec: the spec's idempotence property feeds the normalizer
with an "already-normalized input re-serialized"; the repository itself never
re-serializes a record, so this is a standard model of `JSON.stringify`
applied to a `NormalizedAnalysis`, emitting the record's fields in schema
order with no added whitespace. -/

/-- Lowercase hexadecimal digit character. -/
def hexDigitChar (n : Nat) : Char :=
  if n < 10 then Char.ofNat ('0'.toNat + n) else Char.ofNat ('a'.toNat + n - 10)

/-- `JSON.stringify` escaping of one string character. -/
def escChar (c : Char) : List Char :=
  if c = '"' then ['\\', '"']
  else if c = '\\' then ['\\', '\\']
  else if c = '\n' then ['\\', 'n']
  else if c = '\r' then ['\\', 'r']
  else if c = '\t' then ['\\', 't']
  else if c.toNat = 8 then ['\\', 'b']
  else if c.toNat = 12 then ['\\', 'f']
  else if c.toNat < 32 then
    ['\\', 'u', '0', '0', hexDigitChar (c.toNat / 16), hexDigitChar (c.toNat % 16)]
  else [c]

/-- Escape every character of a string body. -/
def escapeChars (cs : List Char) : List Char := (cs.map escChar).flatten

/-- A JSON string literal. -/
def serializeString (s : String) : List Char :=
  '"' :: (escapeChars s.data ++ ['"'])

/-- The comma-separated elements of an array of strings. -/
def serializeStrElems : List String → List Char
  | [] => []
  | [s] => serializeString s
  | s :: rest => serializeString s ++ (',' :: serializeStrElems rest)

/-- A JSON array of strings. -/
def serializeStrList (l : List String) : List Char :=
  '[' :: (serializeStrElems l ++ [']'])

/-- The comma-separated members of the categories object. -/
def serializeCatMembers : List (String × Int) → List Char
  | [] => []
  | [kv] => serializeString kv.1 ++ (':' :: (intToDecString kv.2).data)
  | kv :: rest =>
    serializeString kv.1 ++ (':' :: (intToDecString kv.2).data) ++
      (',' :: serializeCatMembers rest)

/-- The categories object. -/
def serializeCategories (cats : List (String × Int)) : List Char :=
  '{' :: (serializeCatMembers cats ++ ['}'])

/-- `JSON.stringify` of a normalized record, fields in schema order. -/
def serializeAnalysis (r : NormalizedAnalysis) : String :=
  ⟨'{' ::
    (serializeString "overallScore" ++ (':' :: (intToDecString r.overallScore).data) ++
     (',' :: serializeString "summary") ++ (':' :: serializeString r.summary) ++
     (',' :: serializeString "strengths") ++ (':' :: serializeStrList r.strengths) ++
     (',' :: serializeString "weaknesses") ++ (':' :: serializeStrList r.weaknesses) ++
     (',' :: serializeString "improvements") ++ (':' :: serializeStrList r.improvements) ++
     (',' :: serializeString "keywordSuggestions") ++ (':' :: serializeStrList r.keywordSuggestions) ++
     (',' :: serializeString "categories") ++ (':' :: serializeCategories r.categories) ++
     ['}'])⟩

/-! ## The `POST /analyze` input gate (lines 13-22) -/

/-- The outcome of the orchestrator's input gate: a 400 rejection, or the
inference call carrying the (possibly truncated) text. -/
inductive AnalyzeStep where
  | invalidInput (status : Nat) (message : String)
  | callInference (textToAnalyze : String)
deriving DecidableEq

/-- The 400 message of line 17. -/
def invalidInputMessage : String :=
  "Resume text is required and must be substantial enough for analysis."

/-- `const maxLength = 50000` (line 21). -/
def maxAnalyzeLength : Nat := 50000

/-- Lines 13-22: reject when `!resumeText || resumeText.trim().length < 100`,
else analyze `resumeText.length > maxLength ? resumeText.substring(0, maxLength)
: resumeText`. -/
def analyzeInputGate (resumeText : String) : AnalyzeStep :=
  if resumeText = "" ∨ (jsTrim resumeText).length < 100 then
    .invalidInput 400 invalidInputMessage
  else
    .callInference
      (if resumeText.length > maxAnalyzeLength then
        jsSubstring resumeText maxAnalyzeLength
      else resumeText)

/-! ## The `GET /:uniqueId` lookup route (lines 206-246) -/

/-- The regex test `/^[a-f0-9]{16}$/.test(uniqueId)` (line 211). -/
def isValidUniqueId (s : String) : Bool :=
  s.length == 16 &&
    s.data.all fun c => ('a' ≤ c && c ≤ 'f') || ('0' ≤ c && c ≤ '9')

/-- The identifier contract as the spec words it: exactly 16 lowercase
hexadecimal characters.  (Modelled from the spec, for comparison with the
code's regex.) -/
def SpecHexIdentifier (s : String) : Prop :=
  s.length = 16 ∧ ∀ c ∈ s.data, ('a' ≤ c ∧ c ≤ 'f') ∨ ('0' ≤ c ∧ c ≤ '9')

instance (s : String) : Decidable (SpecHexIdentifier s) := by
  unfold SpecHexIdentifier; infer_instance

/-- The lookup's first step: validation happens before any storage access, so
an invalid identifier produces the 400 response and a valid one proceeds to
the storage query (`Analysis.findOne`). -/
inductive LookupStep where
  | badRequest (status : Nat) (message : String)
  | storageFind (uniqueId : String)
deriving DecidableEq

/-- Lines 209-219: validate, then query storage. -/
def lookupAnalysis (uniqueId : String) : LookupStep :=
  if isValidUniqueId uniqueId then .storageFind uniqueId
  else .badRequest 400 "Invalid analysis ID format"

/-! ## The stored record and the shared-lookup response (lines 219-236) -/

/-- The persisted analysis document (src/unnamed/part_000 schema): unique
identifier, stored resume text, normalized payload, metadata, creation
timestamp. -/
structure AnalysisRecord where
  uniqueId : String
  resumeText : String
  analysisData : NormalizedAnalysis
  metadata : Json
  createdAt : Nat

/-- The `data` object of a successful `GET /:uniqueId` response
(lines 229-236): analysis payload, metadata, creation timestamp — nothing
else. -/
structure SharedAnalysisData where
  analysisData : NormalizedAnalysis
  metadata : Json
  createdAt : Nat

/-- Lines 229-236: the response built from a found record. -/
def sharedAnalysisResponse (a : AnalysisRecord) : SharedAnalysisData where
  analysisData := a.analysisData
  metadata := a.metadata
  createdAt := a.createdAt

/-! ## The upload route (src/unnamed/part_001)

`cleanupFile` (lines 413-424), `performImageOCR` (lines 426-472), `parsePDF`
and the PDF branch of `POST /resume` (lines 507-600).  The external
collaborators are modelled by the event that decides each run: what the PDF
parser emits, what the OCR engine does.  File existence is threaded as a
boolean so the cleanup behaviour is observable. -/

/-- Result of calling a JS function that may throw. -/
inductive JsCallResult (α : Type) where
  | ok (a : α) : JsCallResult α
  | thrown (errName : String) : JsCallResult α

/-- Node's callback-style `fs.access`, as imported in the upload route
(`import fs from 'fs'`), invoked with no callback argument: since Node 10 the
callback is mandatory and the call throws a `TypeError` synchronously. -/
def fsAccessNoCallback (_path : String) : JsCallResult Unit := .thrown "TypeError"

/-- Node's callback-style `fs.unlink` invoked with no callback argument:
throws a `TypeError` synchronously. -/
def fsUnlinkNoCallback (_path : String) : JsCallResult Unit := .thrown "TypeError"

/-- `cleanupFile` (lines 413-424):
`try { await fs.access(filePath); await fs.unlink(filePath); } catch {}`.
Takes whether the file exists and returns whether it exists afterwards.
Because `fs.access` is the callback API called without a callback, it throws
`TypeError` at once; the empty `catch` swallows it and `fs.unlink` is never
reached, so the state is returned unchanged. -/
def cleanupFile (path : String) (fileExists : Bool) : Bool :=
  match fsAccessNoCallback path with
  | .thrown _ => fileExists
  | .ok _ =>
    match fsUnlinkNoCallback path with
    | .thrown _ => fileExists
    | .ok _ => false

/-- Modelled from the spec: the cleanup the spec describes — delete the
temporary file, tolerating a file already missing — i.e. what lines 413-424
would do with the promise-based `fs` API. -/
def specCleanupFile (_path : String) (_fileExists : Bool) : Bool := false

/-- An HTTP response of the upload route: status, success flag, message, and
the extracted text when present. -/
structure UploadResponse where
  status : Nat
  success : Bool
  message : String
  extractedText : Option String
deriving DecidableEq

/-! ### Image OCR (lines 426-472) -/

/-- What the OCR collaborator does on a given run: `createWorker` throws,
`worker.recognize` throws, or recognition returns raw text. -/
inductive OcrEvent where
  | createWorkerFails (e : String)
  | recognizeFails (e : String)
  | recognized (text : String)

/-- The observable outcome of `performImageOCR`: the response, whether a
worker was acquired, whether `worker.terminate()` was called before
returning, and whether the temporary file still exists. -/
structure OcrOutcome where
  response : UploadResponse
  workerAcquired : Bool
  workerTerminated : Bool
  tempFileRemains : Bool
deriving DecidableEq

/-- The 400 message of line 443. -/
def insufficientOcrTextMessage : String :=
  "OCR completed but could not extract sufficient readable text from the image."

/-- `performImageOCR` (lines 426-472).  On the success path the worker is
terminated (line 435) before the length check; when `createWorker` or
`recognize` throws, the `catch` block (lines 461-471) runs `cleanupFile` but
never calls `worker.terminate()`. -/
def performImageOCR (ev : OcrEvent) (filePath : String) (fileExists : Bool) :
    OcrOutcome :=
  match ev with
  | .createWorkerFails e =>
    { response := ⟨500, false, "Image OCR failed: " ++ e, none⟩
      workerAcquired := false
      workerTerminated := false
      tempFileRemains := cleanupFile filePath fileExists }
  | .recognizeFails e =>
    { response := ⟨500, false, "Image OCR failed: " ++ e, none⟩
      workerAcquired := true
      workerTerminated := false
      tempFileRemains := cleanupFile filePath fileExists }
  | .recognized text =>
    let ocrText := jsTrim text
    if ocrText = "" ∨ ocrText.length < 50 then
      { response := ⟨400, false, insufficientOcrTextMessage, none⟩
        workerAcquired := true
        workerTerminated := true
        tempFileRemains := cleanupFile filePath fileExists }
    else
      { response := ⟨200, true, "", some ocrText⟩
        workerAcquired := true
        workerTerminated := true
        tempFileRemains := cleanupFile filePath fileExists }

/-! ### PDF parsing (lines 507-600) -/

/-- One text run of the pdf2json output (`textRun.T`, percent-encoded). -/
structure PdfTextRun where
  T : Option String

/-- One text item (`text.R`). -/
structure PdfText where
  R : Option (List PdfTextRun)

/-- One page (`page.Texts`). -/
structure PdfPage where
  Texts : Option (List PdfText)

/-- The parsed document (`pdfData.Pages`). -/
structure PdfData where
  Pages : Option (List PdfPage)

/-- `decodeURIComponent` (model): percent-decode; a `%` not followed by two
hexadecimal digits throws `URIError`, modelled as `none`.  Multi-byte UTF-8
sequences are modelled byte by byte, which no claim depends on. -/
def percentDecode : List Char → Option (List Char)
  | [] => some []
  | '%' :: h1 :: h2 :: rest =>
    match hexVal? h1, hexVal? h2 with
    | some a, some b => (percentDecode rest).map fun l => Char.ofNat (a * 16 + b) :: l
    | _, _ => none
  | '%' :: _ => none
  | c :: rest => (percentDecode rest).map fun l => c :: l

/-- One run's contribution: skipped when `textRun.T` is absent or empty
(falsy), otherwise the decoded run followed by the space of line 537. -/
def pdfRunText (r : PdfTextRun) : Option (List Char) :=
  match r.T with
  | none => some []
  | some t =>
    if t = "" then some []
    else (percentDecode t.data).map fun l => l ++ [' ']

/-- One text item's contribution (`if (text.R)` then each run). -/
def pdfTextItemText (x : PdfText) : Option (List Char) :=
  match x.R with
  | none => some []
  | some runs => (runs.mapM pdfRunText).map List.flatten

/-- One page's contribution: its text items, then the newline of line 542 —
appended only when `page.Texts` is present. -/
def pdfPageText (p : PdfPage) : Option (List Char) :=
  match p.Texts with
  | none => some []
  | some texts => (texts.mapM pdfTextItemText).map fun l => l.flatten ++ ['\n']

/-- The assembled `extractedText` of lines 524-545; `none` when a
`decodeURIComponent` call throws (the exception is caught at line 549 and
rejects the parse). -/
def pdfExtractText (d : PdfData) : Option String :=
  match d.Pages with
  | none => some ""
  | some pages => (pages.mapM pdfPageText).map fun l => ⟨l.flatten⟩

/-- What the PDF parse collaborator does on a given run: the 30-second
timeout fires, a `pdfParser_dataError` event carries a parse error (the empty
string models a falsy `errData.parseError`), or `pdfParser_dataReady` carries
a document. -/
inductive PdfParseEvent where
  | timeout
  | dataError (parseError : String)
  | dataReady (d : PdfData)

/-- `parsePDF` (lines 509-557): the promise resolves with the trimmed
assembled text, or rejects with `'PDF parsing timeout'` (line 512), with
`errData.parseError || 'PDF parsing error'` (line 517), or with the
`URIError` from a malformed percent-encoding (`'URI malformed'`, V8's
message). -/
def parsePDF : PdfParseEvent → Except String String
  | .timeout => .error "PDF parsing timeout"
  | .dataError m => .error (if m = "" then "PDF parsing error" else m)
  | .dataReady d =>
    match pdfExtractText d with
    | some t => .ok (jsTrim t)
    | none => .error "URI malformed"

/-- The 400 message of lines 570 and 598 — the same string literal at both
sites. -/
def scannedPdfMessage : String :=
  "This appears to be a scanned PDF. Please convert your resume to JPG or PNG format and upload as an image file for OCR processing."

/-- Outcome of the PDF branch of `POST /resume`: the response and whether the
temporary file still exists. -/
structure PdfRouteOutcome where
  response : UploadResponse
  tempFileRemains : Bool
deriving DecidableEq

/-- Lines 559-600: await `parsePDF`; on short or empty text respond 400 with
the scanned-PDF message (lines 563-572); on success respond 200 with the
text (lines 574-589); on any rejection the `catch` responds 400 with the
same scanned-PDF message (lines 591-600).  `cleanupFile` runs on every path
before responding. -/
def pdfUploadBranch (ev : PdfParseEvent) (filePath : String)
    (fileExists : Bool) : PdfRouteOutcome :=
  match parsePDF ev with
  | .ok t =>
    if t = "" ∨ t.length < 50 then
      { response := ⟨400, false, scannedPdfMessage, none⟩
        tempFileRemains := cleanupFile filePath fileExists }
    else
      { response := ⟨200, true, "Resume processed successfully", some t⟩
        tempFileRemains := cleanupFile filePath fileExists }
  | .error _ =>
    { response := ⟨400, false, scannedPdfMessage, none⟩
      tempFileRemains := cleanupFile filePath fileExists }

/-! ## Supporting lemmas -/

/-- The broken cleanup leaves the file-existence state unchanged. -/
theorem cleanupFile_eq (p : String) (b : Bool) : cleanupFile p b = b := rfl

theorem dropWhile_length_le (p : Char → Bool) (l : List Char) :
    (l.dropWhile p).length ≤ l.length := by
  induction l with
  | nil => simp
  | cons a l ih =>
    by_cases h : p a
    · simp only [List.dropWhile_cons, h, if_true, List.length_cons]
      omega
    · simp [List.dropWhile_cons, h]

theorem trimChars_length_le (cs : List Char) :
    (trimChars cs).length ≤ cs.length := by
  unfold trimChars
  calc ((cs.dropWhile isWsChar).reverse.dropWhile isWsChar).reverse.length
      = ((cs.dropWhile isWsChar).reverse.dropWhile isWsChar).length :=
        List.length_reverse _
    _ ≤ (cs.dropWhile isWsChar).reverse.length := dropWhile_length_le _ _
    _ = (cs.dropWhile isWsChar).length := List.length_reverse _
    _ ≤ cs.length := dropWhile_length_le _ _

/-- Trimming never lengthens a string. -/
theorem jsTrim_length_le (s : String) : (jsTrim s).length ≤ s.length :=
  trimChars_length_le s.data

/-! ## Claim theorems: the analyze input gate (C4) -/

/-- C4: the analyze operation rejects any request whose trimmed resume text
has fewer than 100 characters with a 400 `InvalidInput` response, proceeds to
the inference call when the trimmed text has at least (in particular exactly)
100 characters, and for any accepted text longer than 50,000 characters sends
exactly the first 50,000 characters of the text to the inference
collaborator. -/
theorem analyzeInputGate_spec (s : String) :
    ((jsTrim s).length < 100 →
      analyzeInputGate s = .invalidInput 400 invalidInputMessage) ∧
    (100 ≤ (jsTrim s).length →
      analyzeInputGate s =
        .callInference
          (if s.length > maxAnalyzeLength then jsSubstring s maxAnalyzeLength
           else s) ∧
      (s.length > 50000 →
        analyzeInputGate s = .callInference (jsSubstring s 50000) ∧
        (jsSubstring s 50000).data = s.data.take 50000 ∧
        (jsSubstring s 50000).length = 50000)) := by
  constructor
  · intro h
    unfold analyzeInputGate
    rw [if_pos (Or.inr h)]
  · intro h
    have hne : ¬(s = "" ∨ (jsTrim s).length < 100) := by
      rintro (rfl | hlt)
      · have h0 : (jsTrim "").length = 0 := rfl
        omega
      · omega
    constructor
    · unfold analyzeInputGate
      rw [if_neg hne]
    · intro hlong
      have hgt : s.length > maxAnalyzeLength := hlong
      refine ⟨?_, rfl, ?_⟩
      · unfold analyzeInputGate
        rw [if_neg hne, if_pos hgt]
        rfl
      · show (s.data.take 50000).length = 50000
        rw [List.length_take]
        have hd : s.data.length = s.length := rfl
        omega

/-- Witness for C4: a 100-character resume passes the gate untruncated and a
short one is rejected. -/
theorem analyzeInputGate_spec_witness :
    analyzeInputGate ⟨List.replicate 100 'a'⟩ =
      .callInference ⟨List.replicate 100 'a'⟩ ∧
    analyzeInputGate "too short" = .invalidInput 400 invalidInputMessage := by
  constructor
  · have h := (analyzeInputGate_spec ⟨List.replicate 100 'a'⟩).2 (by decide)
    have h1 := h.1
    norm_num [String.length, maxAnalyzeLength] at h1
    exact h1
  · exact (analyzeInputGate_spec "too short").1 (by decide)

/-! ## Claim theorems: lookup identifier validation (C5) -/

/-- C5: the lookup operation validates the identifier before any storage
access — an identifier is passed to the storage query exactly when it is 16
lowercase hexadecimal characters; `"deadbeefdeadbeef"` reaches storage while
`"xyz"` and `"deadbeef"` are rejected with the 400 response and no storage
step. -/
theorem lookupAnalysis_spec (s : String) :
    lookupAnalysis "deadbeefdeadbeef" = .storageFind "deadbeefdeadbeef" ∧
    lookupAnalysis "xyz" = .badRequest 400 "Invalid analysis ID format" ∧
    lookupAnalysis "deadbeef" = .badRequest 400 "Invalid analysis ID format" ∧
    (SpecHexIdentifier s → lookupAnalysis s = .storageFind s) ∧
    (¬ SpecHexIdentifier s →
      lookupAnalysis s = .badRequest 400 "Invalid analysis ID format") := by
  have hiff : isValidUniqueId s = true ↔ SpecHexIdentifier s := by
    simp [isValidUniqueId, SpecHexIdentifier, List.all_eq_true]
  refine ⟨by decide, by decide, by decide, ?_, ?_⟩
  · intro h
    simp [lookupAnalysis, hiff.mpr h]
  · intro h
    have : isValidUniqueId s ≠ true := fun hv => h (hiff.mp hv)
    simp [lookupAnalysis, this]

/-- Witness for C5: a conforming identifier reaches storage; an uppercase one
does not conform and is rejected. -/
theorem lookupAnalysis_spec_witness :
    lookupAnalysis "0123456789abcdef" = .storageFind "0123456789abcdef" ∧
    lookupAnalysis "DEADBEEFDEADBEEF" =
      .badRequest 400 "Invalid analysis ID format" :=
  ⟨(lookupAnalysis_spec "0123456789abcdef").2.2.2.1 (by decide),
   (lookupAnalysis_spec "DEADBEEFDEADBEEF").2.2.2.2 (by decide)⟩

/-! ## Claim theorems: the shared-lookup response (C10) -/

/-- C10: a successful lookup response carries exactly the analysis payload,
the metadata blob and the creation timestamp, and is unchanged under any
replacement of the stored resume text — the persisted resume text never
reaches the shareable-link response. -/
theorem sharedAnalysisResponse_spec (a : AnalysisRecord) (t : String) :
    sharedAnalysisResponse a =
      { analysisData := a.analysisData, metadata := a.metadata,
        createdAt := a.createdAt } ∧
    sharedAnalysisResponse { a with resumeText := t } =
      sharedAnalysisResponse a :=
  ⟨rfl, rfl⟩

/-! ## Claim theorems: the PDF failure classification (C6) -/

/-- C6 counterexample: the three PDF failure outcomes — timeout, parser data
error, and a successful parse with fewer than 50 trimmed characters — all
produce the *same* user-facing response (status 400 with the scanned-PDF
instruction), so they do not map to distinct user-facing instructions as the
claim states. -/
theorem pdf_failure_responses_identical :
    (pdfUploadBranch .timeout "f.pdf" true).response.message =
      scannedPdfMessage ∧
    (pdfUploadBranch (.dataError "bad XRef entry") "f.pdf" true).response.message =
      scannedPdfMessage ∧
    (pdfUploadBranch (.dataReady ⟨some []⟩) "f.pdf" true).response.message =
      scannedPdfMessage ∧
    (pdfUploadBranch .timeout "f.pdf" true).response =
      (pdfUploadBranch (.dataReady ⟨some []⟩) "f.pdf" true).response :=
  ⟨rfl, rfl, rfl, rfl⟩

/-- C6 (amended): the three outcomes are classified distinctly *internally* —
timeout rejects with `'PDF parsing timeout'`, a parser data error rejects
with its own message (or `'PDF parsing error'` when falsy), and a short
successful parse is handled by the length check — but every one of the three
maps to the same user-facing response: status 400 with the convert-to-image
instruction. -/
theorem pdf_outcomes_classified (m : String) (d : PdfData) (p : String)
    (b : Bool) :
    parsePDF .timeout = .error "PDF parsing timeout" ∧
    parsePDF (.dataError "") = .error "PDF parsing error" ∧
    (m ≠ "" → parsePDF (.dataError m) = .error m) ∧
    ((pdfUploadBranch .timeout p b).response.status = 400 ∧
      (pdfUploadBranch .timeout p b).response.message = scannedPdfMessage) ∧
    ((pdfUploadBranch (.dataError m) p b).response.status = 400 ∧
      (pdfUploadBranch (.dataError m) p b).response.message =
        scannedPdfMessage) ∧
    (∀ t, parsePDF (.dataReady d) = .ok t → t.length < 50 →
      (pdfUploadBranch (.dataReady d) p b).response.status = 400 ∧
      (pdfUploadBranch (.dataReady d) p b).response.message =
        scannedPdfMessage) := by
  refine ⟨rfl, rfl, ?_, ⟨rfl, rfl⟩, ⟨rfl, rfl⟩, ?_⟩
  · intro h
    simp [parsePDF, h]
  · intro t ht hlen
    have hshort : (t = "" ∨ t.length < 50) = True := by simp [hlen]
    simp [pdfUploadBranch, ht, hshort]

/-- Witness for C6 (amended): a concrete parser error message and a concrete
empty document exercise the hypotheses. -/
theorem pdf_outcomes_classified_witness :
    parsePDF (.dataError "bad XRef entry") = .error "bad XRef entry" ∧
    (pdfUploadBranch (.dataReady ⟨some []⟩) "f.pdf" true).response.message =
      scannedPdfMessage :=
  ⟨(pdf_outcomes_classified "bad XRef entry" ⟨some []⟩ "f.pdf" true).2.2.1
     (by decide),
   ((pdf_outcomes_classified "bad XRef entry" ⟨some []⟩ "f.pdf" true).2.2.2.2.2
     "" rfl (by decide)).2⟩

/-! ## Claim theorems: the OCR worker lifetime (C7) -/

/-- C7 is a code bug: when `worker.recognize` throws, `performImageOCR`
returns from its `catch` block without calling `worker.terminate()` — the
acquired engine instance is not released — while both recognition paths that
do not throw terminate the worker. -/
theorem performImageOCR_worker_leak (e p t : String) (b : Bool) :
    (performImageOCR (.recognizeFails e) p b).workerAcquired = true ∧
    (performImageOCR (.recognizeFails e) p b).workerTerminated = false ∧
    (performImageOCR (.recognized t) p b).workerTerminated = true := by
  refine ⟨rfl, rfl, ?_⟩
  by_cases h : jsTrim t = "" ∨ (jsTrim t).length < 50 <;>
    simp [performImageOCR, h]

/-! ## Claim theorems: temporary-file cleanup (C8) -/

/-- C8 is a code bug: `cleanupFile` awaits the callback-style `fs.access` and
`fs.unlink` without callbacks, so the first call throws `TypeError`
synchronously, the empty `catch` swallows it, and the temporary file is never
deleted on any path of either extraction branch — unlike the deletion the
spec describes (`specCleanupFile`). -/
theorem tempFile_never_deleted (p : String) (b : Bool) (ev : PdfParseEvent)
    (oev : OcrEvent) :
    cleanupFile p b = b ∧
    specCleanupFile p b = false ∧
    (pdfUploadBranch ev p b).tempFileRemains = b ∧
    (performImageOCR oev p b).tempFileRemains = b := by
  refine ⟨rfl, rfl, ?_, ?_⟩
  · unfold pdfUploadBranch
    cases h : parsePDF ev with
    | ok t =>
      by_cases hs : t = "" ∨ t.length < 50 <;> simp [h, hs, cleanupFile_eq]
    | error e => simp [h, cleanupFile_eq]
  · cases oev with
    | createWorkerFails e => rfl
    | recognizeFails e => rfl
    | recognized t =>
      by_cases h : jsTrim t = "" ∨ (jsTrim t).length < 50 <;>
        simp [performImageOCR, h, cleanupFile_eq]

/-! ## Claim theorems: numeric coercion and clamping (C2, C9) -/

/-- C2: numeric fields are coerced and clamped independently — a completion
with `overallScore` −5 normalizes to 0, with 15 to 10, and with the field
absent to 7; a completion whose categories object is `{skills: 12}` yields
`skills` 10 with the other four fixed keys present at the default 7. -/
theorem overallScore_and_categories_coercion :
    (normalizeCompletion "\x7b\"overallScore\": -5\x7d").overallScore = 0 ∧
    (normalizeCompletion "\x7b\"overallScore\": 15\x7d").overallScore = 10 ∧
    (normalizeCompletion "{}").overallScore = 7 ∧
    (normalizeCompletion "\x7b\"categories\": \x7b\"skills\": 12\x7d\x7d").categories =
      [("formatting", 7), ("content", 7), ("skills", 10), ("experience", 7),
       ("achievements", 7)] := by
  refine ⟨?_, ?_, ?_, ?_⟩ <;> decide

/-- C9: a parsed completion carrying `overallScore` 0 normalizes to 7, not 0 —
`Number(x) || 7` replaces every falsy coercion result (0 as well as NaN) with
the default 7 before the clamp, so an explicit zero score is not preserved. -/
theorem zero_overallScore_replaced_by_default
    (fields : List (String × Json)) (x : Option Json) :
    (normalizeCompletion "\x7b\"overallScore\": 0\x7d").overallScore = 7 ∧
    clampScore (some (.num 0)) = 7 ∧
    (jsToNumberU x = .nan → clampScore x = 7) ∧
    (lookupKey "overallScore" fields = some (.num 0) →
      (normalizeFields fields).overallScore = 7) := by
  refine ⟨by decide, rfl, ?_, ?_⟩
  · intro h
    simp [clampScore, h, numOr7]
  · intro h
    simp [normalizeFields, h]
    rfl

/-- Witness for C9: the singleton completion object with a zero score. -/
theorem zero_overallScore_replaced_by_default_witness :
    (normalizeFields [("overallScore", Json.num 0)]).overallScore = 7 ∧
    clampScore none = 7 :=
  ⟨(zero_overallScore_replaced_by_default [("overallScore", Json.num 0)]
      none).2.2.2 rfl,
   (zero_overallScore_replaced_by_default [("overallScore", Json.num 0)]
      none).2.2.1 rfl⟩

/-! ## Claim theorems: normalization bounds (C1) -/

/-- The five fixed category keys, in the order of the default table. -/
def fixedCategoryKeys : List String :=
  ["formatting", "content", "skills", "experience", "achievements"]

/-- The bounds of §3's table: score clamped to [0,10]; summary at most 500
characters; strengths, weaknesses, improvements at most 5 entries, all
non-empty; keyword suggestions at most 10; every fixed category key present
with a value in [0,10]. -/
def NormalizedBounds (r : NormalizedAnalysis) : Prop :=
  0 ≤ r.overallScore ∧ r.overallScore ≤ 10 ∧
  r.summary.length ≤ 500 ∧
  r.strengths.length ≤ 5 ∧ (∀ s ∈ r.strengths, s ≠ "") ∧
  r.weaknesses.length ≤ 5 ∧ (∀ s ∈ r.weaknesses, s ≠ "") ∧
  r.improvements.length ≤ 5 ∧ (∀ s ∈ r.improvements, s ≠ "") ∧
  r.keywordSuggestions.length ≤ 10 ∧
  ∀ k ∈ fixedCategoryKeys,
    ∃ v, lookupKey k r.categories = some v ∧ 0 ≤ v ∧ v ≤ 10

theorem clampScore_bounds (x : Option Json) :
    0 ≤ clampScore x ∧ clampScore x ≤ 10 := by
  unfold clampScore
  cases h : numOr7 (jsToNumberU x) with
  | fin n => simp only [h]; constructor <;> omega
  | nan => simp [h]
  | posInf => simp [h]
  | negInf => simp [h]

theorem summaryStep_length_le (x : Option Json) :
    (summaryStep x).length ≤ 500 := by
  have key : ∀ s : String, (jsSubstring s 500).length ≤ 500 := by
    intro s
    show (s.data.take 500).length ≤ 500
    rw [List.length_take]
    omega
  exact key _

theorem listFieldStep_length_le (x : Option Json) (maxLen : Nat)
    (defaults : List String) (h : defaults.length ≤ maxLen) :
    (listFieldStep x maxLen defaults).length ≤ maxLen := by
  unfold listFieldStep
  rcases x with _ | j
  · exact h
  rcases j with _ | b | n | s | elems | fields
  case arr =>
    calc ((elems.take maxLen).filterMap _).length
        ≤ (elems.take maxLen).length := List.length_filterMap_le _ _
      _ ≤ maxLen := by rw [List.length_take]; omega
  all_goals exact h

theorem listFieldStep_entries_ne_empty (x : Option Json) (maxLen : Nat)
    (defaults : List String) (hd : ∀ d ∈ defaults, d ≠ "") :
    ∀ s ∈ listFieldStep x maxLen defaults, s ≠ "" := by
  unfold listFieldStep
  rcases x with _ | j
  · exact hd
  rcases j with _ | b | n | s' | elems | fields
  case arr =>
    intro s hs
    rw [List.mem_filterMap] at hs
    obtain ⟨j, _, hf⟩ := hs
    rcases j with _ | b | n | s'' | e | f <;> simp at hf
    obtain ⟨hne, rfl⟩ := hf
    exact hne
  all_goals exact hd

theorem lookupKey_append_of_some {α : Type} (k : String)
    (l₁ l₂ : List (String × α)) (v : α) (h : lookupKey k l₁ = some v) :
    lookupKey k (l₁ ++ l₂) = some v := by
  induction l₁ with
  | nil => simp [lookupKey] at h
  | cons kv rest ih =>
    obtain ⟨k', v'⟩ := kv
    rw [List.cons_append]
    by_cases hk : k' = k
    · simp only [lookupKey, if_pos hk] at h ⊢
      exact h
    · simp only [lookupKey, if_neg hk] at h ⊢
      exact ih h

/-- For every fixed key, the merged-and-clamped categories table holds a
clamped value. -/
theorem mergedCategories_fixed (fields : List (String × Json)) :
    ∀ k ∈ fixedCategoryKeys,
      ∃ v, lookupKey k
          ((spreadMerge defaultCategoriesJson fields).map fun kv =>
            (kv.1, clampScore (some kv.2))) = some v ∧ 0 ≤ v ∧ v ≤ 10 := by
  have hmap : (spreadMerge defaultCategoriesJson fields).map
      (fun kv => (kv.1, clampScore (some kv.2))) =
      ((defaultCategoriesJson.map fun kv =>
          (kv.1, (lookupKey kv.1 fields).getD kv.2)).map fun kv =>
            (kv.1, clampScore (some kv.2))) ++
        ((fields.filter fun kv =>
            (lookupKey kv.1 defaultCategoriesJson).isNone).map fun kv =>
          (kv.1, clampScore (some kv.2))) := by
    rw [spreadMerge, List.map_append]
  intro k hk
  fin_cases hk
  · refine ⟨clampScore (some ((lookupKey "formatting" fields).getD (.num 7))),
      ?_, (clampScore_bounds _).1, (clampScore_bounds _).2⟩
    rw [hmap]
    apply lookupKey_append_of_some
    simp [defaultCategoriesJson, defaultCategories, lookupKey]
  · refine ⟨clampScore (some ((lookupKey "content" fields).getD (.num 7))),
      ?_, (clampScore_bounds _).1, (clampScore_bounds _).2⟩
    rw [hmap]
    apply lookupKey_append_of_some
    simp [defaultCategoriesJson, defaultCategories, lookupKey]
  · refine ⟨clampScore (some ((lookupKey "skills" fields).getD (.num 7))),
      ?_, (clampScore_bounds _).1, (clampScore_bounds _).2⟩
    rw [hmap]
    apply lookupKey_append_of_some
    simp [defaultCategoriesJson, defaultCategories, lookupKey]
  · refine ⟨clampScore (some ((lookupKey "experience" fields).getD (.num 7))),
      ?_, (clampScore_bounds _).1, (clampScore_bounds _).2⟩
    rw [hmap]
    apply lookupKey_append_of_some
    simp [defaultCategoriesJson, defaultCategories, lookupKey]
  · refine ⟨clampScore (some ((lookupKey "achievements" fields).getD (.num 7))),
      ?_, (clampScore_bounds _).1, (clampScore_bounds _).2⟩
    rw [hmap]
    apply lookupKey_append_of_some
    simp [defaultCategoriesJson, defaultCategories, lookupKey]

theorem categoriesStep_fixed (x : Option Json) :
    ∀ k ∈ fixedCategoryKeys,
      ∃ v, lookupKey k (categoriesStep x) = some v ∧ 0 ≤ v ∧ v ≤ 10 := by
  have hdefault : ∀ k ∈ fixedCategoryKeys,
      ∃ v, lookupKey k defaultCategories = some v ∧ 0 ≤ v ∧ v ≤ 10 := by
    intro k hk
    fin_cases hk <;> exact ⟨7, rfl, by norm_num, by norm_num⟩
  unfold categoriesStep
  rcases x with _ | j
  · exact hdefault
  rcases j with _ | b | n | s | elems | fields
  case obj => exact mergedCategories_fixed fields
  case arr => exact mergedCategories_fixed _
  all_goals exact hdefault

theorem normalizeFields_bounds (fields : List (String × Json)) :
    NormalizedBounds (normalizeFields fields) := by
  refine ⟨(clampScore_bounds _).1, (clampScore_bounds _).2,
    summaryStep_length_le _,
    listFieldStep_length_le _ _ _ (by norm_num),
    listFieldStep_entries_ne_empty _ _ _ (by decide),
    listFieldStep_length_le _ _ _ (by norm_num),
    listFieldStep_entries_ne_empty _ _ _ (by decide),
    listFieldStep_length_le _ _ _ (by norm_num),
    listFieldStep_entries_ne_empty _ _ _ (by decide),
    listFieldStep_length_le _ _ _ (by norm_num),
    categoriesStep_fixed _⟩

set_option maxRecDepth 4000 in
theorem fallbackAnalysis_bounds : NormalizedBounds fallbackAnalysis := by
  refine ⟨by decide, by decide, by decide, by decide, by decide,
    by decide, by decide, by decide, by decide, by decide, ?_⟩
  intro k hk
  fin_cases hk <;> first
    | exact ⟨7, rfl, by norm_num, by norm_num⟩
    | exact ⟨6, rfl, by norm_num, by norm_num⟩

theorem normalizeParsed_bounds (j : Json) :
    NormalizedBounds (normalizeParsed j) := by
  rcases j with _ | b | n | s | elems | fields
  case obj => exact normalizeFields_bounds fields
  case arr => exact normalizeFields_bounds []
  all_goals exact fallbackAnalysis_bounds

/-- C1: for every raw completion string — empty, non-JSON, JSON missing every
field, JSON with out-of-range numbers, JSON wrapped in markdown fences —
normalization is a total function returning a record satisfying every bound
of §3's table. -/
theorem normalizeCompletion_total_bounds (raw : String) :
    NormalizedBounds (normalizeCompletion raw) := by
  have hsplit : normalizeCompletion raw =
      match parseJson ⟨extractJsonCandidate
          (trimChars (stripFencePatterns (trimChars raw.data)))⟩ with
      | some j => normalizeParsed j
      | none => fallbackAnalysis := rfl
  rw [hsplit]
  cases parseJson ⟨extractJsonCandidate
      (trimChars (stripFencePatterns (trimChars raw.data)))⟩ with
  | none => exact fallbackAnalysis_bounds
  | some j => exact normalizeParsed_bounds j

/-! ## Round-trip infrastructure for the idempotence claim (C3)

The spec feeds `normalize(serialize(normalize(s)))`; the lemmas below show
each cleaning step of the normalizer is the identity on the serializer's
output and that parsing it recovers the record's JSON value. -/

/-- The JSON value corresponding to a serialized normalized record. -/
def analysisToJson (r : NormalizedAnalysis) : Json :=
  .obj [("overallScore", .num r.overallScore),
        ("summary", .str r.summary),
        ("strengths", .arr (r.strengths.map .str)),
        ("weaknesses", .arr (r.weaknesses.map .str)),
        ("improvements", .arr (r.improvements.map .str)),
        ("keywordSuggestions", .arr (r.keywordSuggestions.map .str)),
        ("categories", .obj (r.categories.map fun kv => (kv.1, .num kv.2)))]

/-- Does `pat` occur as a contiguous subsequence? -/
def containsSeq (pat : List Char) : List Char → Bool
  | [] => false
  | c :: rest => pat.isPrefixOf (c :: rest) || containsSeq pat rest

theorem charOfNat_toNat (c : Char) : Char.ofNat c.toNat = c := by
  have hv : Nat.isValidChar c.toNat := c.valid
  unfold Char.ofNat
  rw [dif_pos hv]
  unfold Char.ofNatAux
  apply Char.ext
  apply UInt32.ext
  rfl

theorem skipWs_cons_of_not_ws {c : Char} (h : isWsChar c = false)
    (rest : List Char) : skipWs (c :: rest) = c :: rest := by
  simp [skipWs, List.dropWhile_cons, h]

theorem trimChars_sandwich {c d : Char} (h1 : isWsChar c = false)
    (h2 : isWsChar d = false) (mid : List Char) :
    trimChars (c :: (mid ++ [d])) = c :: (mid ++ [d]) := by
  unfold trimChars
  rw [List.dropWhile_cons_of_neg (by simp [h1])]
  have hrev : (c :: (mid ++ [d])).reverse = d :: (mid.reverse ++ [c]) := by
    simp
  rw [hrev, List.dropWhile_cons_of_neg (by simp [h2]), ← hrev,
    List.reverse_reverse]

theorem stripPattern_of_not_contains (pat : List Char)
    (cs : List Char) (h : containsSeq pat cs = false) :
    ∀ fuel, stripPattern pat fuel cs = cs := by
  induction cs with
  | nil => intro fuel; cases fuel <;> rfl
  | cons c rest ih =>
    intro fuel
    cases fuel with
    | zero => rfl
    | succ f =>
      unfold containsSeq at h
      rw [Bool.or_eq_false_iff] at h
      unfold stripPattern
      rw [if_neg (by simp [h.1]), ih h.2 f]

theorem containsSeq_of_isPrefixOf_seq {pat1 pat2 : List Char}
    (hp : pat1 <+: pat2) (cs : List Char)
    (h : containsSeq pat1 cs = false) : containsSeq pat2 cs = false := by
  induction cs with
  | nil => rfl
  | cons c rest ih =>
    unfold containsSeq at h ⊢
    rw [Bool.or_eq_false_iff] at h ⊢
    refine ⟨?_, ih h.2⟩
    by_contra hcontra
    rw [Bool.not_eq_false, List.isPrefixOf_iff_prefix] at hcontra
    have : pat1 <+: c :: rest := hp.trans hcontra
    rw [← List.isPrefixOf_iff_prefix] at this
    rw [this] at h
    exact absurd h.1 (by simp)

/-- With no triple backtick in the input, both fence-strip passes are the
identity. -/
theorem stripFencePatterns_of_no_fence (cs : List Char)
    (h : containsSeq "```".data cs = false) : stripFencePatterns cs = cs := by
  unfold stripFencePatterns
  have hjson : containsSeq "```json".data cs = false :=
    containsSeq_of_isPrefixOf_seq (by decide) cs h
  rw [stripPattern_of_not_contains _ _ hjson,
    stripPattern_of_not_contains _ _ h]

theorem extractJsonCandidate_sandwich (mid : List Char) :
    extractJsonCandidate ('{' :: (mid ++ ['}'])) = '{' :: (mid ++ ['}']) := by
  unfold extractJsonCandidate
  rw [List.dropWhile_cons_of_neg (by simp)]
  have hcontains : ('{' :: (mid ++ ['}'])).contains '}' = true := by
    simp [List.contains_eq_any_beq]
  dsimp only
  rw [if_pos hcontains]
  have hrev : ('{' :: (mid ++ ['}'])).reverse = '}' :: (mid.reverse ++ ['{']) := by
    simp
  rw [hrev, List.dropWhile_cons_of_neg (by simp)]
  rw [← hrev, List.reverse_reverse]

theorem digitVal?_digitChar {d : Nat} (h : d < 10) :
    digitVal? (digitChar d) = some d := by
  interval_cases d <;> decide

theorem hexVal?_hexDigitChar {m : Nat} (h : m < 16) :
    hexVal? (hexDigitChar m) = some m := by
  interval_cases m <;> decide

/-- Parsing a string literal body recovers exactly the escaped content. -/
theorem parseStringBody_escape (content rest : List Char) :
    parseStringBody (escapeChars content ++ ('"' :: rest)) =
      some (content, rest) := by
  induction content generalizing rest with
  | nil =>
    have h : escapeChars [] ++ ('"' :: rest) = '"' :: rest := rfl
    rw [h, parseStringBody.eq_def]
    simp
  | cons c cs ih =>
    have hesc : escapeChars (c :: cs) ++ ('"' :: rest) =
        escChar c ++ (escapeChars cs ++ ('"' :: rest)) := by
      simp [escapeChars]
    rw [hesc]
    unfold escChar
    by_cases h1 : c = '"'
    · subst h1
      rw [if_pos rfl, parseStringBody.eq_def]
      simp [unescapeChar?, ih]
    rw [if_neg h1]
    by_cases h2 : c = '\\'
    · subst h2
      rw [if_pos rfl, parseStringBody.eq_def]
      simp [unescapeChar?, ih]
    rw [if_neg h2]
    by_cases h3 : c = '\n'
    · subst h3
      rw [if_pos rfl, parseStringBody.eq_def]
      simp [unescapeChar?, ih]
    rw [if_neg h3]
    by_cases h4 : c = '\r'
    · subst h4
      rw [if_pos rfl, parseStringBody.eq_def]
      simp [unescapeChar?, ih]
    rw [if_neg h4]
    by_cases h5 : c = '\t'
    · subst h5
      rw [if_pos rfl, parseStringBody.eq_def]
      simp [unescapeChar?, ih]
    rw [if_neg h5]
    by_cases h6 : c.toNat = 8
    · rw [if_pos h6]
      have hc : c = Char.ofNat 8 := by rw [← h6, charOfNat_toNat]
      subst hc
      rw [parseStringBody.eq_def]
      simp [unescapeChar?, ih]
    rw [if_neg h6]
    by_cases h7 : c.toNat = 12
    · rw [if_pos h7]
      have hc : c = Char.ofNat 12 := by rw [← h7, charOfNat_toNat]
      subst hc
      rw [parseStringBody.eq_def]
      simp [unescapeChar?, ih]
    rw [if_neg h7]
    by_cases h8 : c.toNat < 32
    · rw [if_pos h8]
      have hdiv : c.toNat / 16 < 16 := by omega
      have hmod : c.toNat % 16 < 16 := by omega
      have hchar : Char.ofNat
          (((0 * 16 + 0) * 16 + c.toNat / 16) * 16 + c.toNat % 16) = c := by
        rw [show ((0 * 16 + 0) * 16 + c.toNat / 16) * 16 + c.toNat % 16 =
          c.toNat from by omega, charOfNat_toNat]
      rw [parseStringBody.eq_def]
      simp only [List.cons_append, List.nil_append,
        show hexVal? '0' = some 0 from rfl, hexVal?_hexDigitChar hdiv,
        hexVal?_hexDigitChar hmod, ih, Option.map_some', hchar]
      simp
    · rw [if_neg h8]
      have h : ([c] : List Char) ++ (escapeChars cs ++ ('"' :: rest)) =
          c :: (escapeChars cs ++ ('"' :: rest)) := rfl
      rw [h, parseStringBody.eq_def]
      simp [h1, h2, h8, ih]

/-- Parsing a serialized score (an integer in [0,10]) followed by a
non-digit. -/
theorem parseValue_score (fuel : Nat) (v : Int) (h0 : 0 ≤ v) (h10 : v ≤ 10)
    (sep : Char) (hsep : digitVal? sep = none) (rest : List Char) :
    parseValue (fuel + 1) ((intToDecString v).data ++ sep :: rest) =
      some (.num v, sep :: rest) := by
  have base := fun (cs : List Char) => parseValue.eq_def (fuel + 1) cs
  interval_cases v
  · show parseValue (fuel + 1) ('0' :: sep :: rest) = some (.num 0, sep :: rest)
    rw [parseValue.eq_def]
    simp [skipWs, List.dropWhile_cons, List.isPrefixOf, parseNumber, parseDigits,
      List.span_eq_take_drop, List.takeWhile, List.dropWhile, digitsToNat,
      digitsToNat.go, hsep, isWsChar, show digitVal? '0' = some 0 from rfl]
  · show parseValue (fuel + 1) ('1' :: sep :: rest) = some (.num 1, sep :: rest)
    rw [parseValue.eq_def]
    simp [skipWs, List.dropWhile_cons, List.isPrefixOf, parseNumber, parseDigits,
      List.span_eq_take_drop, List.takeWhile, List.dropWhile, digitsToNat,
      digitsToNat.go, hsep, isWsChar, show digitVal? '1' = some 1 from rfl]
  · show parseValue (fuel + 1) ('2' :: sep :: rest) = some (.num 2, sep :: rest)
    rw [parseValue.eq_def]
    simp [skipWs, List.dropWhile_cons, List.isPrefixOf, parseNumber, parseDigits,
      List.span_eq_take_drop, List.takeWhile, List.dropWhile, digitsToNat,
      digitsToNat.go, hsep, isWsChar, show digitVal? '2' = some 2 from rfl]
  · show parseValue (fuel + 1) ('3' :: sep :: rest) = some (.num 3, sep :: rest)
    rw [parseValue.eq_def]
    simp [skipWs, List.dropWhile_cons, List.isPrefixOf, parseNumber, parseDigits,
      List.span_eq_take_drop, List.takeWhile, List.dropWhile, digitsToNat,
      digitsToNat.go, hsep, isWsChar, show digitVal? '3' = some 3 from rfl]
  · show parseValue (fuel + 1) ('4' :: sep :: rest) = some (.num 4, sep :: rest)
    rw [parseValue.eq_def]
    simp [skipWs, List.dropWhile_cons, List.isPrefixOf, parseNumber, parseDigits,
      List.span_eq_take_drop, List.takeWhile, List.dropWhile, digitsToNat,
      digitsToNat.go, hsep, isWsChar, show digitVal? '4' = some 4 from rfl]
  · show parseValue (fuel + 1) ('5' :: sep :: rest) = some (.num 5, sep :: rest)
    rw [parseValue.eq_def]
    simp [skipWs, List.dropWhile_cons, List.isPrefixOf, parseNumber, parseDigits,
      List.span_eq_take_drop, List.takeWhile, List.dropWhile, digitsToNat,
      digitsToNat.go, hsep, isWsChar, show digitVal? '5' = some 5 from rfl]
  · show parseValue (fuel + 1) ('6' :: sep :: rest) = some (.num 6, sep :: rest)
    rw [parseValue.eq_def]
    simp [skipWs, List.dropWhile_cons, List.isPrefixOf, parseNumber, parseDigits,
      List.span_eq_take_drop, List.takeWhile, List.dropWhile, digitsToNat,
      digitsToNat.go, hsep, isWsChar, show digitVal? '6' = some 6 from rfl]
  · show parseValue (fuel + 1) ('7' :: sep :: rest) = some (.num 7, sep :: rest)
    rw [parseValue.eq_def]
    simp [skipWs, List.dropWhile_cons, List.isPrefixOf, parseNumber, parseDigits,
      List.span_eq_take_drop, List.takeWhile, List.dropWhile, digitsToNat,
      digitsToNat.go, hsep, isWsChar, show digitVal? '7' = some 7 from rfl]
  · show parseValue (fuel + 1) ('8' :: sep :: rest) = some (.num 8, sep :: rest)
    rw [parseValue.eq_def]
    simp [skipWs, List.dropWhile_cons, List.isPrefixOf, parseNumber, parseDigits,
      List.span_eq_take_drop, List.takeWhile, List.dropWhile, digitsToNat,
      digitsToNat.go, hsep, isWsChar, show digitVal? '8' = some 8 from rfl]
  · show parseValue (fuel + 1) ('9' :: sep :: rest) = some (.num 9, sep :: rest)
    rw [parseValue.eq_def]
    simp [skipWs, List.dropWhile_cons, List.isPrefixOf, parseNumber, parseDigits,
      List.span_eq_take_drop, List.takeWhile, List.dropWhile, digitsToNat,
      digitsToNat.go, hsep, isWsChar, show digitVal? '9' = some 9 from rfl]
  · show parseValue (fuel + 1) ('1' :: '0' :: sep :: rest) = some (.num 10, sep :: rest)
    rw [parseValue.eq_def]
    simp [skipWs, List.dropWhile_cons, List.isPrefixOf, parseNumber, parseDigits,
      List.span_eq_take_drop, List.takeWhile, List.dropWhile, digitsToNat,
      digitsToNat.go, hsep, isWsChar, show digitVal? '0' = some 0 from rfl, show digitVal? '1' = some 1 from rfl]

/-- Parsing a serialized string literal as a JSON value. -/
theorem parseValue_string (fuel : Nat) (s : String) (rest : List Char) :
    parseValue (fuel + 1) (serializeString s ++ rest) = some (.str s, rest) := by
  have hassoc : serializeString s ++ rest =
      '"' :: (escapeChars s.data ++ ('"' :: rest)) := by
    simp [serializeString]
  rw [hassoc, parseValue.eq_def]
  simp [isWsChar, skipWs, List.dropWhile_cons, parseStringBody_escape]

theorem skipWs_serializeString (s : String) (y : List Char) :
    skipWs (serializeString s ++ y) = serializeString s ++ y := by
  simp [serializeString, skipWs, List.dropWhile_cons, isWsChar]

theorem serializeString_cons (s : String) (y : List Char) :
    serializeString s ++ y = '"' :: (escapeChars s.data ++ ('"' :: y)) := by
  simp [serializeString]

/-- Parsing the serialized elements of a nonempty string array. -/
theorem parseElems_strings (l : List String) (acc : List Json)
    (rest : List Char) (fuel : Nat) (hfuel : l.length + 1 ≤ fuel)
    (hne : l ≠ []) :
    parseElems fuel (serializeStrElems l ++ (']' :: rest)) acc =
      some (.arr (acc ++ l.map .str), rest) := by
  induction l generalizing acc fuel with
  | nil => cases hne rfl
  | cons s t ih =>
    obtain ⟨f, rfl⟩ : ∃ f, fuel = f + 1 := ⟨fuel - 1, by omega⟩
    obtain ⟨f', rfl⟩ : ∃ f', f = f' + 1 := ⟨f - 1, by simp at hfuel; omega⟩
    rw [parseElems.eq_def]
    cases t with
    | nil =>
      rw [show serializeStrElems [s] ++ (']' :: rest) =
        serializeString s ++ (']' :: rest) from rfl]
      simp [parseValue_string, skipWs, List.dropWhile_cons, isWsChar]
    | cons s2 t2 =>
      have h1 : serializeStrElems (s :: s2 :: t2) ++ (']' :: rest) =
          serializeString s ++
            (',' :: (serializeStrElems (s2 :: t2) ++ (']' :: rest))) := by
        show (serializeString s ++ (',' :: serializeStrElems (s2 :: t2))) ++
            (']' :: rest) = _
        simp
      rw [h1]
      have hih := ih (acc ++ [Json.str s]) (f' + 1)
        (by simp at hfuel ⊢; omega) (by simp)
      simp [parseValue_string, skipWs, List.dropWhile_cons, isWsChar, hih]

/-- Parsing a serialized string array as a JSON value. -/
theorem parseValue_strArray (l : List String) (fuel : Nat)
    (hfuel : l.length + 2 ≤ fuel) (rest : List Char) :
    parseValue fuel (serializeStrList l ++ rest) =
      some (.arr (l.map .str), rest) := by
  obtain ⟨f, rfl⟩ : ∃ f, fuel = f + 1 := ⟨fuel - 1, by omega⟩
  cases l with
  | nil =>
    rw [show serializeStrList [] ++ rest = '[' :: (']' :: rest) from rfl,
      parseValue.eq_def]
    simp [skipWs, List.dropWhile_cons, isWsChar]
  | cons s t =>
    have h1 : serializeStrList (s :: t) ++ rest =
        '[' :: (serializeStrElems (s :: t) ++ (']' :: rest)) := by
      simp [serializeStrList]
    rw [h1, parseValue.eq_def]
    obtain ⟨Y, hX⟩ : ∃ Y, serializeStrElems (s :: t) ++ (']' :: rest) =
        '"' :: Y := by
      cases t with
      | nil => exact ⟨_, serializeString_cons s _⟩
      | cons s2 t2 =>
        refine ⟨escapeChars s.data ++
          ('"' :: (',' :: (serializeStrElems (s2 :: t2) ++ (']' :: rest)))), ?_⟩
        show (serializeString s ++ (',' :: serializeStrElems (s2 :: t2))) ++
            (']' :: rest) = _
        rw [List.append_assoc, serializeString_cons]
        simp
    have hparse := parseElems_strings (s :: t) [] rest f
      (by simp at hfuel ⊢; omega) (by simp)
    rw [hX] at hparse ⊢
    simp [skipWs, List.dropWhile_cons, isWsChar, hparse]

theorem insertField_fresh (acc : List (String × Json)) (k : String) (v : Json)
    (h : lookupKey k acc = none) : insertField acc k v = acc ++ [(k, v)] := by
  induction acc with
  | nil => rfl
  | cons kv rest ih =>
    obtain ⟨k', v'⟩ := kv
    unfold insertField
    unfold lookupKey at h
    by_cases hk : k' = k
    · rw [if_pos hk] at h
      simp at h
    · rw [if_neg hk] at h
      rw [if_neg hk, ih h]
      simp

theorem lookupKey_cons {α : Type} (k k' : String) (v : α)
    (rest : List (String × α)) :
    lookupKey k ((k', v) :: rest) =
      if k' = k then some v else lookupKey k rest := by
  rw [lookupKey]

theorem lookupKey_append_left_none {α : Type} (k : String)
    (l₁ l₂ : List (String × α)) (h : lookupKey k l₁ = none) :
    lookupKey k (l₁ ++ l₂) = lookupKey k l₂ := by
  induction l₁ with
  | nil => rfl
  | cons kv rest ih =>
    obtain ⟨k', v'⟩ := kv
    rw [lookupKey_cons] at h
    by_cases hk : k' = k
    · rw [if_pos hk] at h
      simp at h
    · rw [if_neg hk] at h
      rw [List.cons_append, lookupKey_cons, if_neg hk]
      exact ih h

/-- One object-member parse step: key, colon, a value parse, then the
separator dispatch. -/
theorem parseMembers_one (f : Nat) (k : String) (acc : List (String × Json))
    (v : Json) (vchars T : List Char)
    (hval : parseValue f (vchars ++ T) = some (v, T)) :
    parseMembers (f + 1) (serializeString k ++ (':' :: (vchars ++ T))) acc =
      (match skipWs T with
       | ',' :: r4 => parseMembers f r4 (insertField acc k v)
       | '}' :: r4 => some (.obj (insertField acc k v), r4)
       | _ => none) := by
  rw [parseMembers.eq_def, serializeString_cons]
  simp [skipWs, List.dropWhile_cons, isWsChar, parseStringBody_escape, hval]

/-- Parsing the serialized members of a nonempty categories object. -/
theorem parseMembers_cats (cats : List (String × Int))
    (acc : List (String × Json)) (rest : List Char) (fuel : Nat)
    (hfuel : cats.length + 2 ≤ fuel)
    (hvals : ∀ kv ∈ cats, 0 ≤ kv.2 ∧ kv.2 ≤ 10)
    (hfresh : ∀ kv ∈ cats, lookupKey kv.1 acc = none)
    (hnodup : (cats.map Prod.fst).Nodup) (hne : cats ≠ []) :
    parseMembers fuel (serializeCatMembers cats ++ ('}' :: rest)) acc =
      some (.obj (acc ++ cats.map fun kv => (kv.1, Json.num kv.2)), rest) := by
  induction cats generalizing acc fuel with
  | nil => cases hne rfl
  | cons kv t ih =>
    obtain ⟨k, v⟩ := kv
    obtain ⟨f, rfl⟩ : ∃ f, fuel = f + 1 := ⟨fuel - 1, by omega⟩
    obtain ⟨f', rfl⟩ : ∃ f', f = f' + 1 := ⟨f - 1, by simp at hfuel; omega⟩
    have hv := hvals (k, v) (List.mem_cons_self _ _)
    cases t with
    | nil =>
      have h1 : serializeCatMembers [(k, v)] ++ ('}' :: rest) =
          serializeString k ++
            (':' :: ((intToDecString v).data ++ ('}' :: rest))) := by
        show (serializeString k ++ (':' :: (intToDecString v).data)) ++
            ('}' :: rest) = _
        simp
      rw [h1, parseMembers_one (f' + 1) k acc (.num v) _ _
        (parseValue_score f' v hv.1 hv.2 '}' rfl rest)]
      rw [insertField_fresh acc k _ (hfresh (k, v) (List.mem_cons_self _ _))]
      simp [skipWs, List.dropWhile_cons, isWsChar]
    | cons kv2 t2 =>
      have h1 : serializeCatMembers ((k, v) :: kv2 :: t2) ++ ('}' :: rest) =
          serializeString k ++
            (':' :: ((intToDecString v).data ++
              (',' :: (serializeCatMembers (kv2 :: t2) ++ ('}' :: rest))))) := by
        show (serializeString k ++ (':' :: (intToDecString v).data) ++
            (',' :: serializeCatMembers (kv2 :: t2))) ++ ('}' :: rest) = _
        simp
      have hnodup' : (k :: (kv2 :: t2).map Prod.fst).Nodup := by
        rwa [List.map_cons] at hnodup
      rw [h1, parseMembers_one (f' + 1) k acc (.num v) _ _
        (parseValue_score f' v hv.1 hv.2 ',' rfl _)]
      rw [insertField_fresh acc k _ (hfresh (k, v) (List.mem_cons_self _ _))]
      have hih := ih (acc ++ [(k, Json.num v)]) (f' + 1)
        (by simp at hfuel ⊢; omega)
        (fun kv' hkv' => hvals kv' (List.mem_cons_of_mem _ hkv'))
        (by
          intro kv' hkv'
          rw [lookupKey_append_left_none _ _ _
            (hfresh kv' (List.mem_cons_of_mem _ hkv')), lookupKey_cons]
          have hk_notin : k ∉ (kv2 :: t2).map Prod.fst :=
            (List.nodup_cons.mp hnodup').1
          have hkne : k ≠ kv'.1 := fun hcontra =>
            hk_notin (hcontra ▸ List.mem_map_of_mem Prod.fst hkv')
          rw [if_neg hkne]
          rfl)
        ((List.nodup_cons.mp hnodup').2) (by simp)
      simp [skipWs, List.dropWhile_cons, isWsChar, hih]

/-- Parsing a serialized categories object as a JSON value. -/
theorem parseValue_catObject (cats : List (String × Int)) (fuel : Nat)
    (hfuel : cats.length + 3 ≤ fuel)
    (hvals : ∀ kv ∈ cats, 0 ≤ kv.2 ∧ kv.2 ≤ 10)
    (hnodup : (cats.map Prod.fst).Nodup) (rest : List Char) :
    parseValue fuel (serializeCategories cats ++ rest) =
      some (.obj (cats.map fun kv => (kv.1, Json.num kv.2)), rest) := by
  obtain ⟨f, rfl⟩ : ∃ f, fuel = f + 1 := ⟨fuel - 1, by omega⟩
  cases cats with
  | nil =>
    rw [show serializeCategories [] ++ rest = '{' :: ('}' :: rest) from rfl,
      parseValue.eq_def]
    simp [skipWs, List.dropWhile_cons, isWsChar]
  | cons kv t =>
    have h1 : serializeCategories (kv :: t) ++ rest =
        '{' :: (serializeCatMembers (kv :: t) ++ ('}' :: rest)) := by
      simp [serializeCategories]
    rw [h1, parseValue.eq_def]
    obtain ⟨Y, hX⟩ : ∃ Y, serializeCatMembers (kv :: t) ++ ('}' :: rest) =
        '"' :: Y := by
      obtain ⟨k, v⟩ := kv
      cases t with
      | nil =>
        refine ⟨escapeChars k.data ++
          ('"' :: ((':' :: (intToDecString v).data) ++ ('}' :: rest))), ?_⟩
        show (serializeString k ++ (':' :: (intToDecString v).data)) ++
            ('}' :: rest) = _
        rw [List.append_assoc, serializeString_cons]
      | cons kv2 t2 =>
        refine ⟨escapeChars k.data ++
          ('"' :: ((':' :: (intToDecString v).data) ++
            (',' :: serializeCatMembers (kv2 :: t2)) ++ ('}' :: rest))), ?_⟩
        show (serializeString k ++ (':' :: (intToDecString v).data) ++
            (',' :: serializeCatMembers (kv2 :: t2))) ++ ('}' :: rest) = _
        rw [List.append_assoc, List.append_assoc, serializeString_cons]
        simp
    have hparse := parseMembers_cats (kv :: t) [] rest f
      (by simp at hfuel ⊢; omega) hvals (by simp [lookupKey]) hnodup (by simp)
    rw [hX] at hparse ⊢
    simp [skipWs, List.dropWhile_cons, isWsChar, hparse]

/-- An object-member step followed by a comma: parse the member, continue
with the accumulated fields. -/
theorem parseMembers_one_comma (f : Nat) (k : String)
    (acc : List (String × Json)) (v : Json) (vchars X : List Char)
    (hval : parseValue f (vchars ++ (',' :: X)) = some (v, ',' :: X)) :
    parseMembers (f + 1) (serializeString k ++ (':' :: (vchars ++ (',' :: X))))
      acc = parseMembers f X (insertField acc k v) := by
  rw [parseMembers_one f k acc v _ _ hval]
  rfl

/-- The final object-member step: parse the member, close the object. -/
theorem parseMembers_one_last (f : Nat) (k : String)
    (acc : List (String × Json)) (v : Json) (vchars X : List Char)
    (hval : parseValue f (vchars ++ ('}' :: X)) = some (v, '}' :: X)) :
    parseMembers (f + 1) (serializeString k ++ (':' :: (vchars ++ ('}' :: X))))
      acc = some (.obj (insertField acc k v), X) := by
  rw [parseMembers_one f k acc v _ _ hval]
  rfl

/-- Entering a serialized object whose first member key is `s`. -/
theorem parseValue_objStep (f : Nat) (s : String) (y : List Char) :
    parseValue (f + 1) ('{' :: (serializeString s ++ (':' :: y))) =
      parseMembers f (serializeString s ++ (':' :: y)) [] := by
  rw [parseValue.eq_def, serializeString_cons]
  rfl

/-- Parsing the full serialized record recovers its JSON value. -/
theorem parseValue_serializeAnalysis (r : NormalizedAnalysis) (fuel : Nat)
    (hfuel : r.strengths.length + r.weaknesses.length +
      r.improvements.length + r.keywordSuggestions.length +
      r.categories.length + 16 ≤ fuel)
    (h0 : 0 ≤ r.overallScore) (h10 : r.overallScore ≤ 10)
    (hcvals : ∀ kv ∈ r.categories, 0 ≤ kv.2 ∧ kv.2 ≤ 10)
    (hcnodup : (r.categories.map Prod.fst).Nodup) :
    parseValue fuel (serializeAnalysis r).data =
      some (analysisToJson r, []) := by
  obtain ⟨g1, rfl⟩ : ∃ x, fuel = x + 1 := ⟨fuel - 1, by omega⟩
  obtain ⟨g2, rfl⟩ : ∃ x, g1 = x + 1 := ⟨g1 - 1, by omega⟩
  obtain ⟨g3, rfl⟩ : ∃ x, g2 = x + 1 := ⟨g2 - 1, by omega⟩
  obtain ⟨g4, rfl⟩ : ∃ x, g3 = x + 1 := ⟨g3 - 1, by omega⟩
  obtain ⟨g5, rfl⟩ : ∃ x, g4 = x + 1 := ⟨g4 - 1, by omega⟩
  obtain ⟨g6, rfl⟩ : ∃ x, g5 = x + 1 := ⟨g5 - 1, by omega⟩
  obtain ⟨g7, rfl⟩ : ∃ x, g6 = x + 1 := ⟨g6 - 1, by omega⟩
  obtain ⟨g8, rfl⟩ : ∃ x, g7 = x + 1 := ⟨g7 - 1, by omega⟩
  obtain ⟨g9, rfl⟩ : ∃ x, g8 = x + 1 := ⟨g8 - 1, by omega⟩
  have hbody : (serializeAnalysis r).data =
    '{' :: (serializeString "overallScore" ++ (':' ::
      ((intToDecString r.overallScore).data ++ (',' ::
      (serializeString "summary" ++ (':' ::
      (serializeString r.summary ++ (',' ::
      (serializeString "strengths" ++ (':' ::
      (serializeStrList r.strengths ++ (',' ::
      (serializeString "weaknesses" ++ (':' ::
      (serializeStrList r.weaknesses ++ (',' ::
      (serializeString "improvements" ++ (':' ::
      (serializeStrList r.improvements ++ (',' ::
      (serializeString "keywordSuggestions" ++ (':' ::
      (serializeStrList r.keywordSuggestions ++ (',' ::
      (serializeString "categories" ++ (':' ::
      (serializeCategories r.categories ++
        ('}' :: [])))))))))))))))))))))))))))) := by
    show '{' :: _ = _
    simp [List.append_assoc]
  rw [hbody, parseValue_objStep]
  rw [parseMembers_one_comma _ "overallScore" _ (.num r.overallScore) _ _
    (parseValue_score _ r.overallScore h0 h10 ',' rfl _)]
  rw [parseMembers_one_comma _ "summary" _ (.str r.summary) _ _
    (parseValue_string _ r.summary _)]
  rw [parseMembers_one_comma _ "strengths" _ (.arr (r.strengths.map .str)) _ _
    (parseValue_strArray r.strengths _ (by omega) _)]
  rw [parseMembers_one_comma _ "weaknesses" _ (.arr (r.weaknesses.map .str)) _ _
    (parseValue_strArray r.weaknesses _ (by omega) _)]
  rw [parseMembers_one_comma _ "improvements" _
    (.arr (r.improvements.map .str)) _ _
    (parseValue_strArray r.improvements _ (by omega) _)]
  rw [parseMembers_one_comma _ "keywordSuggestions" _
    (.arr (r.keywordSuggestions.map .str)) _ _
    (parseValue_strArray r.keywordSuggestions _ (by omega) _)]
  rw [parseMembers_one_last _ "categories" _
    (.obj (r.categories.map fun kv => (kv.1, Json.num kv.2))) _ _
    (parseValue_catObject r.categories _ (by omega) hcvals hcnodup _)]
  simp [insertField, analysisToJson]

theorem serializeString_length_ge (s : String) :
    2 ≤ (serializeString s).length := by
  simp [serializeString]

theorem serializeStrElems_length_ge (l : List String) :
    l.length ≤ (serializeStrElems l).length := by
  induction l with
  | nil => simp [serializeStrElems]
  | cons s t ih =>
    cases t with
    | nil =>
      have := serializeString_length_ge s
      simp [serializeStrElems]
      omega
    | cons s2 t2 =>
      have h1 := serializeString_length_ge s
      simp [serializeStrElems] at ih ⊢
      omega

theorem serializeStrList_length_ge (l : List String) :
    l.length + 2 ≤ (serializeStrList l).length := by
  have := serializeStrElems_length_ge l
  simp [serializeStrList]
  omega

theorem serializeCatMembers_length_ge (cats : List (String × Int)) :
    cats.length ≤ (serializeCatMembers cats).length := by
  induction cats with
  | nil => simp [serializeCatMembers]
  | cons kv t ih =>
    cases t with
    | nil =>
      have := serializeString_length_ge kv.1
      simp [serializeCatMembers]
      omega
    | cons kv2 t2 =>
      have h1 := serializeString_length_ge kv.1
      simp [serializeCatMembers] at ih ⊢
      omega

theorem serializeAnalysis_length (r : NormalizedAnalysis) :
    r.strengths.length + r.weaknesses.length + r.improvements.length +
      r.keywordSuggestions.length + r.categories.length + 16 ≤
      (serializeAnalysis r).data.length + 1 := by
  have h1 := serializeStrList_length_ge r.strengths
  have h2 := serializeStrList_length_ge r.weaknesses
  have h3 := serializeStrList_length_ge r.improvements
  have h4 := serializeStrList_length_ge r.keywordSuggestions
  have h5 := serializeCatMembers_length_ge r.categories
  have h6 := serializeString_length_ge r.summary
  show _ ≤ ('{' :: _).length + 1
  simp [List.length_append, serializeCategories]
  omega

/-- `JSON.parse` of the serialized record recovers its JSON value. -/
theorem parseJson_serializeAnalysis (r : NormalizedAnalysis)
    (h0 : 0 ≤ r.overallScore) (h10 : r.overallScore ≤ 10)
    (hcvals : ∀ kv ∈ r.categories, 0 ≤ kv.2 ∧ kv.2 ≤ 10)
    (hcnodup : (r.categories.map Prod.fst).Nodup) :
    parseJson (serializeAnalysis r) = some (analysisToJson r) := by
  unfold parseJson
  rw [parseValue_serializeAnalysis r _ (serializeAnalysis_length r) h0 h10
    hcvals hcnodup]
  simp [skipWs]

/-! ### Re-normalizing the parsed serialization -/

theorem numOr7_fin_ne {v : Int} (h : v ≠ 0) : numOr7 (.fin v) = .fin v := by
  unfold numOr7
  split
  · next heq => simp at heq
  · next heq =>
    injection heq with hv
    exact absurd hv h
  · rfl

theorem clampScore_num {v : Int} (h0 : 0 ≤ v) (h10 : v ≤ 10) (hne : v ≠ 0) :
    clampScore (some (.num v)) = v := by
  unfold clampScore
  rw [show jsToNumberU (some (.num v)) = .fin v from rfl, numOr7_fin_ne hne]
  show min 10 (max 0 v) = v
  omega

theorem summaryStep_fix (s : String) (hne : s ≠ "") (hlen : s.length ≤ 500) :
    summaryStep (some (.str s)) = s := by
  show jsSubstring (jsToString (if jsTruthy (some (.str s)) = true then .str s
    else .str "Resume analysis completed.")) 500 = s
  rw [if_pos (by simp [jsTruthy, hne])]
  show jsSubstring s 500 = s
  unfold jsSubstring
  rw [List.take_of_length_le hlen]

theorem listFieldStep_fix (l : List String) (maxLen : Nat)
    (defaults : List String) (hlen : l.length ≤ maxLen)
    (hne : ∀ s ∈ l, s ≠ "") :
    listFieldStep (some (.arr (l.map .str))) maxLen defaults = l := by
  show ((l.map Json.str).take maxLen).filterMap
      (fun j => match j with
        | Json.str s => if s = "" then none else some s
        | _ => none) = l
  rw [List.take_of_length_le (by simpa using hlen), List.filterMap_map]
  have hcongr : ∀ s ∈ l,
      ((fun j => match j with
        | Json.str s => if s = "" then none else some s
        | _ => none) ∘ Json.str) s = some s := by
    intro s hs
    simp [hne s hs]
  calc l.filterMap _ = l.filterMap some := List.filterMap_congr hcongr
    _ = l := List.filterMap_some l

/-- The shape the normalizer gives the categories table: the five fixed keys
first, then extra keys foreign to the default table. -/
def CategoriesShape (cats : List (String × Int)) : Prop :=
  ∃ v1 v2 v3 v4 v5 extras,
    cats = ("formatting", v1) :: ("content", v2) :: ("skills", v3) ::
      ("experience", v4) :: ("achievements", v5) :: extras ∧
    ∀ kv ∈ extras, lookupKey kv.1 defaultCategoriesJson = none

theorem categoriesStep_fix (cats : List (String × Int))
    (hshape : CategoriesShape cats)
    (hb : ∀ kv ∈ cats, 0 ≤ kv.2 ∧ kv.2 ≤ 10)
    (hne : ∀ kv ∈ cats, kv.2 ≠ 0) :
    categoriesStep (some (.obj (cats.map fun kv => (kv.1, Json.num kv.2)))) =
      cats := by
  obtain ⟨v1, v2, v3, v4, v5, extras, rfl, hex⟩ := hshape
  have hb1 := hb ("formatting", v1) (by simp)
  have hb2 := hb ("content", v2) (by simp)
  have hb3 := hb ("skills", v3) (by simp)
  have hb4 := hb ("experience", v4) (by simp)
  have hb5 := hb ("achievements", v5) (by simp)
  have hn1 := hne ("formatting", v1) (by simp)
  have hn2 := hne ("content", v2) (by simp)
  have hn3 := hne ("skills", v3) (by simp)
  have hn4 := hne ("experience", v4) (by simp)
  have hn5 := hne ("achievements", v5) (by simp)
  show (spreadMerge defaultCategoriesJson _).map
      (fun kv => (kv.1, clampScore (some kv.2))) = _
  unfold spreadMerge
  rw [List.map_append]
  have hfirst : (defaultCategoriesJson.map fun kv =>
      (kv.1, (lookupKey kv.1 ((("formatting", v1) :: ("content", v2) ::
        ("skills", v3) :: ("experience", v4) :: ("achievements", v5) ::
        extras).map fun kv => (kv.1, Json.num kv.2))).getD kv.2)).map
      (fun kv => (kv.1, clampScore (some kv.2))) =
      [("formatting", v1), ("content", v2), ("skills", v3),
       ("experience", v4), ("achievements", v5)] := by
    simp [defaultCategoriesJson, defaultCategories, lookupKey_cons,
      clampScore_num hb1.1 hb1.2 hn1, clampScore_num hb2.1 hb2.2 hn2,
      clampScore_num hb3.1 hb3.2 hn3, clampScore_num hb4.1 hb4.2 hn4,
      clampScore_num hb5.1 hb5.2 hn5]
  rw [hfirst]
  have hfilter : ((("formatting", v1) :: ("content", v2) :: ("skills", v3) ::
      ("experience", v4) :: ("achievements", v5) :: extras).map
        (fun kv => (kv.1, Json.num kv.2))).filter
      (fun kv => (lookupKey kv.1 defaultCategoriesJson).isNone) =
      extras.map fun kv => (kv.1, Json.num kv.2) := by
    simp only [List.map_cons, List.filter_cons]
    rw [if_neg (by simp [defaultCategoriesJson, defaultCategories, lookupKey_cons]),
      if_neg (by simp [defaultCategoriesJson, defaultCategories, lookupKey_cons]),
      if_neg (by simp [defaultCategoriesJson, defaultCategories, lookupKey_cons]),
      if_neg (by simp [defaultCategoriesJson, defaultCategories, lookupKey_cons]),
      if_neg (by simp [defaultCategoriesJson, defaultCategories, lookupKey_cons])]
    rw [List.filter_eq_self.mpr]
    intro kv hkv
    rw [List.mem_map] at hkv
    obtain ⟨kv', hkv', rfl⟩ := hkv
    simp [hex kv' hkv']
  rw [hfilter]
  have hextras : (extras.map fun kv => (kv.1, Json.num kv.2)).map
      (fun kv => (kv.1, clampScore (some kv.2))) = extras := by
    rw [List.map_map]
    have : ∀ kv ∈ extras,
        ((fun kv => (kv.1, clampScore (some kv.2))) ∘
          fun kv => (kv.1, Json.num kv.2)) kv = id kv := by
      intro kv hkv
      have hbkv := hb kv (by simp [hkv])
      have hnkv := hne kv (by simp [hkv])
      simp [clampScore_num hbkv.1 hbkv.2 hnkv]
    rw [List.map_congr_left this, List.map_id]
  rw [hextras]
  rfl

/-- Re-normalizing the parsed serialization of a well-shaped record is the
identity. -/
theorem normalizeParsed_analysisToJson (r : NormalizedAnalysis)
    (hshape : CategoriesShape r.categories)
    (h0 : 0 ≤ r.overallScore) (h10 : r.overallScore ≤ 10)
    (hone : r.overallScore ≠ 0)
    (hcb : ∀ kv ∈ r.categories, 0 ≤ kv.2 ∧ kv.2 ≤ 10)
    (hcne : ∀ kv ∈ r.categories, kv.2 ≠ 0)
    (hsum : r.summary ≠ "") (hsumlen : r.summary.length ≤ 500)
    (hstr : r.strengths.length ≤ 5) (hstrne : ∀ s ∈ r.strengths, s ≠ "")
    (hweak : r.weaknesses.length ≤ 5) (hweakne : ∀ s ∈ r.weaknesses, s ≠ "")
    (himp : r.improvements.length ≤ 5) (himpne : ∀ s ∈ r.improvements, s ≠ "")
    (hkey : r.keywordSuggestions.length ≤ 10)
    (hkeyne : ∀ s ∈ r.keywordSuggestions, s ≠ "") :
    normalizeParsed (analysisToJson r) = r := by
  obtain ⟨ov, su, st, we, im, ke, ca⟩ := r
  show normalizeFields
    [("overallScore", .num ov), ("summary", .str su),
     ("strengths", .arr (st.map .str)), ("weaknesses", .arr (we.map .str)),
     ("improvements", .arr (im.map .str)),
     ("keywordSuggestions", .arr (ke.map .str)),
     ("categories", .obj (ca.map fun kv => (kv.1, Json.num kv.2)))] =
    ⟨ov, su, st, we, im, ke, ca⟩
  rw [show normalizeFields
      [("overallScore", .num ov), ("summary", .str su),
       ("strengths", .arr (st.map .str)), ("weaknesses", .arr (we.map .str)),
       ("improvements", .arr (im.map .str)),
       ("keywordSuggestions", .arr (ke.map .str)),
       ("categories", .obj (ca.map fun kv => (kv.1, Json.num kv.2)))] =
      ⟨clampScore (some (.num ov)), summaryStep (some (.str su)),
       listFieldStep (some (.arr (st.map .str))) 5
         ["Professional content", "Relevant experience", "Clear structure"],
       listFieldStep (some (.arr (we.map .str))) 5
         ["Could improve quantifiable achievements",
          "Limited detail in some areas"],
       listFieldStep (some (.arr (im.map .str))) 5
         ["Add specific metrics", "Include more details",
          "Highlight key accomplishments"],
       listFieldStep (some (.arr (ke.map .str))) 10
         ["Industry terms", "Technical skills", "Relevant certifications"],
       categoriesStep (some (.obj (ca.map fun kv => (kv.1, Json.num kv.2))))⟩
    from rfl]
  rw [clampScore_num h0 h10 hone, summaryStep_fix su hsum hsumlen,
    listFieldStep_fix st 5 _ hstr hstrne,
    listFieldStep_fix we 5 _ hweak hweakne,
    listFieldStep_fix im 5 _ himp himpne,
    listFieldStep_fix ke 10 _ hkey hkeyne,
    categoriesStep_fix ca hshape hcb hcne]

theorem mergedCategories_shape (f : List (String × Json)) :
    CategoriesShape ((spreadMerge defaultCategoriesJson f).map fun kv =>
      (kv.1, clampScore (some kv.2))) := by
  refine ⟨clampScore (some ((lookupKey "formatting" f).getD (.num 7))),
    clampScore (some ((lookupKey "content" f).getD (.num 7))),
    clampScore (some ((lookupKey "skills" f).getD (.num 7))),
    clampScore (some ((lookupKey "experience" f).getD (.num 7))),
    clampScore (some ((lookupKey "achievements" f).getD (.num 7))),
    (f.filter fun kv => (lookupKey kv.1 defaultCategoriesJson).isNone).map
      fun kv => (kv.1, clampScore (some kv.2)), ?_, ?_⟩
  · unfold spreadMerge
    rw [List.map_append]
    simp [defaultCategoriesJson, defaultCategories]
  · intro kv hkv
    rw [List.mem_map] at hkv
    obtain ⟨kv', hkv', rfl⟩ := hkv
    rw [List.mem_filter] at hkv'
    simpa using hkv'.2

theorem categoriesStep_shape (x : Option Json) :
    CategoriesShape (categoriesStep x) := by
  have hdefault : CategoriesShape defaultCategories :=
    ⟨7, 7, 7, 7, 7, [], rfl, by simp⟩
  unfold categoriesStep
  rcases x with _ | j
  · exact hdefault
  rcases j with _ | b | n | s | elems | fields
  case obj => exact mergedCategories_shape fields
  case arr => exact mergedCategories_shape _
  all_goals exact hdefault

theorem categoriesStep_values_bounded (x : Option Json) :
    ∀ kv ∈ categoriesStep x, 0 ≤ kv.2 ∧ kv.2 ≤ 10 := by
  have hdefault : ∀ kv ∈ defaultCategories, 0 ≤ kv.2 ∧ kv.2 ≤ 10 := by
    decide
  have hmerged : ∀ (f : List (String × Json)),
      ∀ kv ∈ (spreadMerge defaultCategoriesJson f).map
        (fun kv => (kv.1, clampScore (some kv.2))), 0 ≤ kv.2 ∧ kv.2 ≤ 10 := by
    intro f kv hkv
    rw [List.mem_map] at hkv
    obtain ⟨kv', _, rfl⟩ := hkv
    exact clampScore_bounds _
  unfold categoriesStep
  rcases x with _ | j
  · exact hdefault
  rcases j with _ | b | n | s | elems | fields
  case obj => exact hmerged fields
  case arr => exact hmerged _
  all_goals exact hdefault

set_option maxRecDepth 4000 in
/-- Every normalized record has the shape the re-normalization fixpoint
needs. -/
theorem normalizeCompletion_shape (raw : String) :
    CategoriesShape (normalizeCompletion raw).categories ∧
    (∀ kv ∈ (normalizeCompletion raw).categories, 0 ≤ kv.2 ∧ kv.2 ≤ 10) ∧
    0 ≤ (normalizeCompletion raw).overallScore ∧
    (normalizeCompletion raw).overallScore ≤ 10 ∧
    (normalizeCompletion raw).summary.length ≤ 500 ∧
    (normalizeCompletion raw).strengths.length ≤ 5 ∧
    (∀ s ∈ (normalizeCompletion raw).strengths, s ≠ "") ∧
    (normalizeCompletion raw).weaknesses.length ≤ 5 ∧
    (∀ s ∈ (normalizeCompletion raw).weaknesses, s ≠ "") ∧
    (normalizeCompletion raw).improvements.length ≤ 5 ∧
    (∀ s ∈ (normalizeCompletion raw).improvements, s ≠ "") ∧
    (normalizeCompletion raw).keywordSuggestions.length ≤ 10 ∧
    (∀ s ∈ (normalizeCompletion raw).keywordSuggestions, s ≠ "") := by
  have hsplit : normalizeCompletion raw =
      match parseJson ⟨extractJsonCandidate
          (trimChars (stripFencePatterns (trimChars raw.data)))⟩ with
      | some j => normalizeParsed j
      | none => fallbackAnalysis := rfl
  rw [hsplit]
  have hfallback : CategoriesShape fallbackAnalysis.categories ∧
      (∀ kv ∈ fallbackAnalysis.categories, 0 ≤ kv.2 ∧ kv.2 ≤ 10) ∧
      0 ≤ fallbackAnalysis.overallScore ∧
      fallbackAnalysis.overallScore ≤ 10 ∧
      fallbackAnalysis.summary.length ≤ 500 ∧
      fallbackAnalysis.strengths.length ≤ 5 ∧
      (∀ s ∈ fallbackAnalysis.strengths, s ≠ "") ∧
      fallbackAnalysis.weaknesses.length ≤ 5 ∧
      (∀ s ∈ fallbackAnalysis.weaknesses, s ≠ "") ∧
      fallbackAnalysis.improvements.length ≤ 5 ∧
      (∀ s ∈ fallbackAnalysis.improvements, s ≠ "") ∧
      fallbackAnalysis.keywordSuggestions.length ≤ 10 ∧
      (∀ s ∈ fallbackAnalysis.keywordSuggestions, s ≠ "") := by
    refine ⟨⟨7, 7, 7, 7, 6, [], rfl, by simp⟩, by decide, by decide, by decide,
      by decide, by decide, by decide, by decide, by decide, by decide,
      by decide, by decide, by decide⟩
  have hfields : ∀ fields : List (String × Json),
      CategoriesShape (normalizeFields fields).categories ∧
      (∀ kv ∈ (normalizeFields fields).categories, 0 ≤ kv.2 ∧ kv.2 ≤ 10) ∧
      0 ≤ (normalizeFields fields).overallScore ∧
      (normalizeFields fields).overallScore ≤ 10 ∧
      (normalizeFields fields).summary.length ≤ 500 ∧
      (normalizeFields fields).strengths.length ≤ 5 ∧
      (∀ s ∈ (normalizeFields fields).strengths, s ≠ "") ∧
      (normalizeFields fields).weaknesses.length ≤ 5 ∧
      (∀ s ∈ (normalizeFields fields).weaknesses, s ≠ "") ∧
      (normalizeFields fields).improvements.length ≤ 5 ∧
      (∀ s ∈ (normalizeFields fields).improvements, s ≠ "") ∧
      (normalizeFields fields).keywordSuggestions.length ≤ 10 ∧
      (∀ s ∈ (normalizeFields fields).keywordSuggestions, s ≠ "") := by
    intro fields
    exact ⟨categoriesStep_shape _, categoriesStep_values_bounded _,
      (clampScore_bounds _).1, (clampScore_bounds _).2,
      summaryStep_length_le _,
      listFieldStep_length_le _ _ _ (by norm_num),
      listFieldStep_entries_ne_empty _ _ _ (by decide),
      listFieldStep_length_le _ _ _ (by norm_num),
      listFieldStep_entries_ne_empty _ _ _ (by decide),
      listFieldStep_length_le _ _ _ (by norm_num),
      listFieldStep_entries_ne_empty _ _ _ (by decide),
      listFieldStep_length_le _ _ _ (by norm_num),
      listFieldStep_entries_ne_empty _ _ _ (by decide)⟩
  cases parseJson ⟨extractJsonCandidate
      (trimChars (stripFencePatterns (trimChars raw.data)))⟩ with
  | none => exact hfallback
  | some j =>
    rcases j with _ | b | n | s | elems | fields
    case obj => exact hfields fields
    case arr => exact hfields []
    all_goals exact hfallback

set_option maxHeartbeats 1000000 in
theorem trimChars_serializeAnalysis (r : NormalizedAnalysis) :
    trimChars (serializeAnalysis r).data = (serializeAnalysis r).data :=
  @trimChars_sandwich '{' '}' (by decide) (by decide) _

set_option maxHeartbeats 1000000 in
theorem extractJsonCandidate_serializeAnalysis (r : NormalizedAnalysis) :
    extractJsonCandidate (serializeAnalysis r).data =
      (serializeAnalysis r).data :=
  extractJsonCandidate_sandwich _

set_option maxHeartbeats 1000000 in
theorem serialize_renormalize_fix (r : NormalizedAnalysis)
    (hshape : CategoriesShape r.categories)
    (h0 : 0 ≤ r.overallScore) (h10 : r.overallScore ≤ 10)
    (hscore : r.overallScore ≠ 0)
    (hcb : ∀ kv ∈ r.categories, 0 ≤ kv.2 ∧ kv.2 ≤ 10)
    (hcats : ∀ kv ∈ r.categories, kv.2 ≠ 0)
    (hsum : r.summary ≠ "") (hsumlen : r.summary.length ≤ 500)
    (hstr : r.strengths.length ≤ 5) (hstrne : ∀ s ∈ r.strengths, s ≠ "")
    (hweak : r.weaknesses.length ≤ 5) (hweakne : ∀ s ∈ r.weaknesses, s ≠ "")
    (himp : r.improvements.length ≤ 5) (himpne : ∀ s ∈ r.improvements, s ≠ "")
    (hkey : r.keywordSuggestions.length ≤ 10)
    (hkeyne : ∀ s ∈ r.keywordSuggestions, s ≠ "")
    (hnodup : (r.categories.map Prod.fst).Nodup)
    (hfence : containsSeq "```".data (serializeAnalysis r).data = false) :
    normalizeCompletion (serializeAnalysis r) = r := by
  have htrim : trimChars (serializeAnalysis r).data =
      (serializeAnalysis r).data := trimChars_serializeAnalysis r
  have hstrip : stripFencePatterns (serializeAnalysis r).data =
      (serializeAnalysis r).data := stripFencePatterns_of_no_fence _ hfence
  have hextract : extractJsonCandidate (serializeAnalysis r).data =
      (serializeAnalysis r).data := extractJsonCandidate_serializeAnalysis r
  have key : parseJson (⟨extractJsonCandidate (trimChars (stripFencePatterns
      (trimChars (serializeAnalysis r).data)))⟩ : String) =
      some (analysisToJson r) := by
    rw [htrim, hstrip, htrim, hextract]
    exact parseJson_serializeAnalysis r h0 h10 hcb hnodup
  rw [normalizeCompletion.eq_def]
  simp only [key]
  exact normalizeParsed_analysisToJson r hshape h0 h10 hscore hcb hcats hsum
    hsumlen hstr hstrne hweak hweakne himp himpne hkey hkeyne

set_option maxRecDepth 10000 in
/-- C3 counterexample: normalization is not idempotent on re-serialized
output.  The completion `{"overallScore": -5}` normalizes to a record with
`overallScore` 0; serializing that record and normalizing again yields 7,
because `Number(0) || 7` treats the stored 0 as falsy. -/
theorem normalize_reserialize_not_idempotent :
    normalizeCompletion
        (serializeAnalysis (normalizeCompletion "\x7b\"overallScore\": -5\x7d")) ≠
      normalizeCompletion "\x7b\"overallScore\": -5\x7d" ∧
    (normalizeCompletion "\x7b\"overallScore\": -5\x7d").overallScore = 0 ∧
    (normalizeCompletion
        (serializeAnalysis
          (normalizeCompletion "\x7b\"overallScore\": -5\x7d"))).overallScore = 7 := by
  refine ⟨?_, ?_, ?_⟩ <;> decide

/-- C3 (amended): normalization is idempotent on a re-serialized normalized
record provided no stored score is 0 (a zero score is falsy and re-defaults
to 7), the stored summary is nonempty (an empty summary is falsy and
re-defaults), the serialized form contains no triple-backtick sequence (the
fence-stripping pass would corrupt it), and the category keys are pairwise
distinct. -/
theorem normalize_reserialize_fixpoint (raw : String)
    (hscore : (normalizeCompletion raw).overallScore ≠ 0)
    (hcats : ∀ kv ∈ (normalizeCompletion raw).categories, kv.2 ≠ 0)
    (hsum : (normalizeCompletion raw).summary ≠ "")
    (hnodup : (((normalizeCompletion raw).categories.map Prod.fst)).Nodup)
    (hfence : containsSeq "```".data
      (serializeAnalysis (normalizeCompletion raw)).data = false) :
    normalizeCompletion (serializeAnalysis (normalizeCompletion raw)) =
      normalizeCompletion raw := by
  obtain ⟨hshape, hcb, h0, h10, hsumlen, hstr, hstrne, hweak, hweakne, himp,
    himpne, hkey, hkeyne⟩ := normalizeCompletion_shape raw
  exact serialize_renormalize_fix (normalizeCompletion raw) hshape h0 h10
    hscore hcb hcats hsum hsumlen hstr hstrne hweak hweakne himp himpne hkey
    hkeyne hnodup hfence

set_option maxRecDepth 10000 in
/-- Witness for the amended C3: the empty-object completion normalizes to the
all-default record, which survives a serialize-and-renormalize round trip. -/
theorem normalize_reserialize_fixpoint_witness :
    normalizeCompletion (serializeAnalysis (normalizeCompletion "{}")) =
      normalizeCompletion "{}" :=
  normalize_reserialize_fixpoint "{}" (by decide) (by decide) (by decide)
    (by decide) (by decide)
